import Mathlib

/-!
Verification of the TalentFlow hiring-workflow client against its
specification.  Each definition below is a shallow embedding of a
TypeScript function of the repository:

* `applyShift`, `reorderElem`, `reorderTransaction`, `reorderJobHandler`,
  `maxOrderJob?`, `nextJobOrder`, `createJob` — the job reorder and
  creation handlers of `src/api/handlers.ts`;
* `isVisible`, `questionError`, `validateErrors`, `validate` — the
  conditional-visibility and validation engine of `AssessmentPreview`;
* `handleDragEnd`, `applyCandidateUpdate`, `updateCandidateHandler` —
  the Kanban drag gesture and `PATCH /api/candidates/:id`;
* `reorderMutationFailure`, `candidateMutationFailure` — the react-query
  optimistic mutation failure cycles of `JobsPage` / `CandidatesKanban`;
* `putAssessmentHandler` — `PUT /api/assessments/:jobId`;
* `deleteSection` — the assessment builder's section deletion.

Timestamp fields (`createdAt`, `updatedAt`, `timestamp`, produced from
`Date.now()`) are outside the model; every other persisted field that
the modelled operations read or write is carried.
-/

/-- A persisted job row.  Only the fields read or written by the reorder
and creation logic are carried (see the module comment on timestamps);
the remaining fields (`title`, `slug`, ...) are never touched by these
handlers. -/
structure Job where
  id : String
  order : Nat
deriving DecidableEq

/-- Body of the shift loop of `PATCH /api/jobs/:id/reorder`
(`src/api/handlers.ts` lines 197–214): when `fromOrder < toOrder` a job
with order in `(fromOrder, toOrder]` gets `order - 1`; when
`fromOrder > toOrder` a job with order in `[toOrder, fromOrder)` gets
`order + 1`; otherwise it is left alone. -/
def applyShift (fromOrder toOrder : Nat) (j : Job) : Job :=
  if fromOrder < toOrder then
    if fromOrder < j.order ∧ j.order ≤ toOrder then { j with order := j.order - 1 } else j
  else if toOrder < fromOrder then
    if toOrder ≤ j.order ∧ j.order < fromOrder then { j with order := j.order + 1 } else j
  else j

/-- Effect of the reorder transaction on a single row: the moved job
(matched by primary key `id`) finally has `order := toOrder` — the last
`db.jobs.update` of the transaction overwrites any shift applied to it —
and every other job is shifted.  The shift conditions read the snapshot
`all` captured at the start of the transaction, which the functional
`map` over the original list reflects. -/
def reorderElem (id : String) (fromOrder toOrder : Nat) (j : Job) : Job :=
  if j.id = id then { j with order := toOrder } else applyShift fromOrder toOrder j

/-- The `db.transaction` block of the reorder handler, applied to the
whole jobs table. -/
def reorderTransaction (jobs : List Job) (id : String) (fromOrder toOrder : Nat) : List Job :=
  jobs.map (reorderElem id fromOrder toOrder)

/-- The `PATCH /api/jobs/:id/reorder` handler: `none` models the 404
response when the job id is absent, otherwise the transaction runs. -/
def reorderJobHandler (jobs : List Job) (id : String) (fromOrder toOrder : Nat) :
    Option (List Job) :=
  if jobs.any (fun j => j.id == id) then some (reorderTransaction jobs id fromOrder toOrder)
  else none

/-- Models `db.jobs.orderBy('order').last()` of the `POST /api/jobs`
handler: some job carrying the maximal `order` value, `none` on an empty
table. -/
def maxOrderJob? : List Job → Option Job
  | [] => none
  | j :: rest =>
    match maxOrderJob? rest with
    | none => some j
    | some m => if m.order < j.order then some j else some m

/-- Order assigned to a newly created job:
`maxOrder ? maxOrder.order + 1 : 0`. -/
def nextJobOrder (jobs : List Job) : Nat :=
  match maxOrderJob? jobs with
  | some m => m.order + 1
  | none => 0

/-- The order-relevant effect of `POST /api/jobs`: the new row is added
with order one greater than the current maximum (0 on an empty table). -/
def createJob (jobs : List Job) (newId : String) : List Job :=
  jobs ++ [{ id := newId, order := nextJobOrder jobs }]

/-- The order-density invariant of the spec: the multiset of order
values across the `n` jobs is exactly `{0, 1, ..., n-1}` — no
duplicates, no gaps. -/
def DenseOrders (jobs : List Job) : Prop :=
  List.Perm (jobs.map Job.order) (List.range jobs.length)

/-- Value-level description of the shift performed by `applyShift`. -/
def shiftVal (i j o : Nat) : Nat :=
  if i < j then (if i < o ∧ o ≤ j then o - 1 else o)
  else if j < i then (if j ≤ o ∧ o < i then o + 1 else o)
  else o

/-- New order of the job whose old order is `o`, when the job with old
order `i` is moved to order `j` (the moved job itself goes to `j`). -/
def movedOrder (i j o : Nat) : Nat :=
  if o = i then j else shiftVal i j o

/-- Old order of the job that ends up at order `k` after moving `i` to
`j`; inverse of `movedOrder i j` on `{0, ..., n-1}`. -/
def hFun (i j k : Nat) : Nat :=
  if k = j then i
  else
    let k2 := if k < j then k else k - 1
    if k2 < i then k2 else k2 + 1

/-- Order currently held by the job with the given id. -/
def jobOrderOf (jobs : List Job) (jid : String) : Option Nat :=
  (jobs.find? (fun j => j.id == jid)).map Job.order

/-- Job ids listed by ascending order value (the display sequence). -/
def idsByOrder (jobs : List Job) : List String :=
  (List.range jobs.length).filterMap
    (fun k => (jobs.find? (fun j => j.order == k)).map Job.id)

/-- Standard array-move semantics (`arrayMove` of dnd-kit, and the
spec's "remove the item and reinsert it at position `j`"): the element
at index `i` is removed and reinserted so that it sits at index `j`. -/
def arrayMove {α : Type} (l : List α) (i j : Nat) : List α :=
  match l[i]? with
  | none => l
  | some x =>
    let removed := l.take i ++ l.drop (i + 1)
    removed.take j ++ x :: removed.drop j

/-- An answer value as held in the preview's `answers` record: every
input control yields a string (the numeric input included — its
`e.target.value` is a string), multi-choice checkboxes yield an array
of option strings. -/
inductive Answer where
  | str (s : String)
  | multi (l : List String)
deriving DecidableEq

/-- Question types of the data model (`src/api/db.ts`). -/
inductive QType where
  | singleChoice
  | multiChoice
  | text
  | longText
  | numeric
  | file
deriving DecidableEq

/-- A conditional-display rule.  The operator is kept as a raw string:
the stored data is JSON, so the evaluator's `default` branch (any
unrecognized operator) is reachable and is part of the contract. -/
structure ConditionalLogic where
  dependsOn : String
  condition : String
  value : String
deriving DecidableEq

/-- A question of the assessment data model.  `title`/`description` are
rendering-only and omitted. -/
structure Question where
  id : String
  type : QType
  required : Bool
  order : Nat := 0
  options : Option (List String) := none
  min : Option Rat := none
  max : Option Rat := none
  maxLength : Option Nat := none
  conditionalLogic : Option ConditionalLogic := none
deriving DecidableEq

structure AssessmentSection where
  id : String
  title : String
  description : Option String := none
  order : Nat
  questions : List Question
deriving DecidableEq

structure Assessment where
  id : String
  jobId : String
  title : String
  description : String
  sections : List AssessmentSection
deriving DecidableEq

/-- Lookup in the `answers` record (`answers[questionId]`); `none` is
JavaScript `undefined`. -/
def lookupAnswer (answers : List (String × Answer)) (k : String) : Option Answer :=
  (answers.find? (fun p => p.1 == k)).map (fun p => p.2)

def listStartsWith : List Char → List Char → Bool
  | _, [] => true
  | [], _ :: _ => false
  | a :: as, b :: bs => a == b && listStartsWith as bs

def listIncludes : List Char → List Char → Bool
  | [], pat => listStartsWith [] pat
  | c :: as, pat => listStartsWith (c :: as) pat || listIncludes as pat

/-- JavaScript `String.prototype.includes`: substring containment. -/
def strIncludes (s pat : String) : Bool :=
  listIncludes s.toList pat.toList

/-- The `isVisible` function of `AssessmentPreview`: a question with no
rule or an empty `dependsOn` is visible; `equals` / `not-equals` /
`contains` compare the (possibly absent) answer of the referenced
question with the rule value, arrays by membership, strings by equality
or substring; any other operator falls to the `default: return true`. -/
def isVisible (answers : List (String × Answer)) (q : Question) : Bool :=
  match q.conditionalLogic with
  | none => true
  | some logic =>
    if logic.dependsOn == "" then true
    else
      let dependsValue := lookupAnswer answers logic.dependsOn
      if logic.condition == "equals" then
        match dependsValue with
        | some (Answer.multi l) => l.contains logic.value
        | some (Answer.str s) => s == logic.value
        | none => false
      else if logic.condition == "not-equals" then
        match dependsValue with
        | some (Answer.multi l) => !(l.contains logic.value)
        | some (Answer.str s) => !(s == logic.value)
        | none => true
      else if logic.condition == "contains" then
        match dependsValue with
        | some (Answer.multi l) => l.contains logic.value
        | some (Answer.str s) => strIncludes s logic.value
        | none => false
      else true

/-- The messages assigned into the per-question error slot by
`validate`, one constructor per template string of the source; the
configured bound is carried like the interpolated `${q.min}` etc. -/
inductive ValidationMsg where
  | requiredField
  | invalidNumber
  | belowMin (bound : Rat)
  | aboveMax (bound : Rat)
  | tooLong (bound : Nat)
deriving DecidableEq

/-- Result of JavaScript `Number(v)`: `NaN`, an infinity, or a finite
value.  Finite values are carried exactly as rationals; the IEEE-754
rounding of in-range values is not modelled, only the overflow of
out-of-range magnitudes to the infinities. -/
inductive JsNum where
  | nan
  | posInf
  | negInf
  | finite (x : Rat)
deriving DecidableEq

/-- The ECMAScript whitespace and line-terminator code points trimmed
at both ends of a string before `ToNumber` parses it. -/
def isJsWhitespace (c : Char) : Bool :=
  [9, 10, 11, 12, 13, 32, 160, 5760, 8192, 8193, 8194, 8195, 8196, 8197,
    8198, 8199, 8200, 8201, 8202, 8232, 8233, 8239, 8287, 12288, 65279].contains c.toNat

def isHexDigitChar (c : Char) : Bool :=
  c.isDigit || (decide ('a' ≤ c) && decide (c ≤ 'f')) || (decide ('A' ≤ c) && decide (c ≤ 'F'))

/-- Numeric value of one digit character in bases up to 16. -/
def digitVal (c : Char) : Nat :=
  if c.isDigit then c.toNat - 48
  else if decide ('a' ≤ c) && decide (c ≤ 'f') then c.toNat - 87
  else c.toNat - 55

/-- Value of a digit string in the given base. -/
def digitsVal (base : Nat) (l : List Char) : Nat :=
  l.foldl (fun acc c => acc * base + digitVal c) 0

/-- The exponent part of a `StrDecimalLiteral`: empty, or `e`/`E`, an
optional sign, and at least one digit. -/
def parseExpPart : List Char → Option Int
  | [] => some 0
  | c :: r =>
    if c = 'e' ∨ c = 'E' then
      match r with
      | '+' :: d =>
        if ¬ d.isEmpty ∧ d.all Char.isDigit then some (Int.ofNat (digitsVal 10 d)) else none
      | '-' :: d =>
        if ¬ d.isEmpty ∧ d.all Char.isDigit then some (-(Int.ofNat (digitsVal 10 d))) else none
      | d =>
        if ¬ d.isEmpty ∧ d.all Char.isDigit then some (Int.ofNat (digitsVal 10 d)) else none
    else none

def natPow (b : Nat) : Nat → Nat
  | 0 => 1
  | e + 1 => b * natPow b e

/-- Rational value `m * 10 ^ e` of a digit string with a decimal
exponent. -/
def ratOfDigits (m : Nat) (e : Int) : Rat :=
  if 0 ≤ e then ((m * natPow 10 e.toNat : Nat) : Rat)
  else mkRat (Int.ofNat m) (natPow 10 (-e).toNat)

/-- An unsigned `StrDecimalLiteral`: digits with an optional fractional
part, or a fractional part alone, followed by an optional exponent
part; `none` on anything else. -/
def parseDecimalLiteral (l : List Char) : Option Rat :=
  let intPart := l.takeWhile Char.isDigit
  let rest := l.drop intPart.length
  match rest with
  | '.' :: r =>
    let fracPart := r.takeWhile Char.isDigit
    let rest2 := r.drop fracPart.length
    if intPart.isEmpty ∧ fracPart.isEmpty then none
    else
      match parseExpPart rest2 with
      | some e =>
        some (ratOfDigits
          (digitsVal 10 intPart * natPow 10 fracPart.length + digitsVal 10 fracPart)
          (e - Int.ofNat fracPart.length))
      | none => none
  | rest2 =>
    if intPart.isEmpty then none
    else
      match parseExpPart rest2 with
      | some e => some (ratOfDigits (digitsVal 10 intPart) e)
      | none => none

/-- The smallest magnitude that IEEE-754 double rounding sends to an
infinity (`2^1024 - 2^970`, the round-to-nearest boundary above the
largest finite double): `Number("1e400")` is `Infinity`. -/
def doubleOverflowBound : Rat := ((natPow 2 1024 - natPow 2 970 : Nat) : Rat)

def finiteOrOverflow (neg : Bool) (x : Rat) : JsNum :=
  if doubleOverflowBound ≤ x then (if neg then JsNum.negInf else JsNum.posInf)
  else JsNum.finite (if neg then -x else x)

/-- A signed decimal literal or a signed `Infinity`; anything else is
`NaN`. -/
def jsSignedDecimal (l : List Char) : JsNum :=
  let signAndRest : Bool × List Char :=
    match l with
    | '-' :: r => (true, r)
    | '+' :: r => (false, r)
    | r => (false, r)
  if signAndRest.2 = "Infinity".toList then
    (if signAndRest.1 then JsNum.negInf else JsNum.posInf)
  else
    match parseDecimalLiteral signAndRest.2 with
    | some x => finiteOrOverflow signAndRest.1 x
    | none => JsNum.nan

/-- JavaScript `Number` on a string (`ToNumber`): trim whitespace; an
empty remainder is `0`; an unsigned `0x`/`0o`/`0b` radix literal takes
its radix value; otherwise a signed decimal literal (with optional
fraction and exponent) or a signed `Infinity`; anything else is `NaN`.
Magnitudes beyond the double range overflow to the infinities. -/
def jsStringToNumber (s : String) : JsNum :=
  let trimmed := ((s.toList.dropWhile isJsWhitespace).reverse.dropWhile isJsWhitespace).reverse
  match trimmed with
  | [] => JsNum.finite 0
  | '0' :: c :: r =>
    if c = 'x' ∨ c = 'X' then
      if ¬ r.isEmpty ∧ r.all isHexDigitChar then finiteOrOverflow false (digitsVal 16 r : Rat)
      else JsNum.nan
    else if c = 'o' ∨ c = 'O' then
      if ¬ r.isEmpty ∧ r.all (fun d => d.isDigit && decide (d ≤ '7')) then
        finiteOrOverflow false (digitsVal 8 r : Rat)
      else JsNum.nan
    else if c = 'b' ∨ c = 'B' then
      if ¬ r.isEmpty ∧ r.all (fun d => d == '0' || d == '1') then
        finiteOrOverflow false (digitsVal 2 r : Rat)
      else JsNum.nan
    else jsSignedDecimal trimmed
  | _ => jsSignedDecimal trimmed

/-- JavaScript `Number` applied to an answer value: strings via
`ToNumber`; `Number([]) = 0`, `Number([x]) = Number(String(x))`, longer
arrays are `NaN`. -/
def jsNumber : Answer → JsNum
  | Answer.str s => jsStringToNumber s
  | Answer.multi [] => JsNum.finite 0
  | Answer.multi [s] => jsStringToNumber s
  | Answer.multi (_ :: _ :: _) => JsNum.nan

/-- `Number.isFinite`: false exactly on `NaN` and the infinities. -/
def JsNum.isFinite : JsNum → Bool
  | JsNum.finite _ => true
  | _ => false

/-- The comparison `num < b` under JavaScript semantics: false on
`NaN`, false on `Infinity`, true on `-Infinity`. -/
def jsLtBound : JsNum → Rat → Bool
  | JsNum.nan, _ => false
  | JsNum.posInf, _ => false
  | JsNum.negInf, _ => true
  | JsNum.finite x, b => decide (x < b)

/-- The comparison `num > b` under JavaScript semantics: false on
`NaN`, true on `Infinity`, false on `-Infinity`. -/
def jsGtBound : JsNum → Rat → Bool
  | JsNum.nan, _ => false
  | JsNum.posInf, _ => true
  | JsNum.negInf, _ => false
  | JsNum.finite x, b => decide (b < x)

/-- The condition of the required branch of `validate`: for
multi-choice, not an array or an empty array; otherwise
`undefined`/`null`/`''`. -/
def unanswered (v : Option Answer) (q : Question) : Bool :=
  if q.type == QType.multiChoice then
    match v with
    | some (Answer.multi l) => l.isEmpty
    | _ => true
  else
    match v with
    | none => true
    | some (Answer.str s) => s == ""
    | some (Answer.multi _) => false

/-- The required check of `validate`: fills the error slot when the
question is required and unanswered, else leaves it. -/
def requiredError (v : Option Answer) (q : Question) : Option ValidationMsg :=
  if q.required then
    if unanswered v q then some ValidationMsg.requiredField else none
  else none

/-- The check `if (!Number.isFinite(num))`, overwriting the error slot
`e` with the invalid-number message on `NaN` and the infinities. -/
def finiteCheck (num : JsNum) (e : Option ValidationMsg) : Option ValidationMsg :=
  if num.isFinite then e else some ValidationMsg.invalidNumber

/-- The check `q.min !== undefined && num < q.min`, overwriting the
error slot `e` with the below-minimum message when it fires. -/
def minCheck (q : Question) (num : JsNum) (e : Option ValidationMsg) : Option ValidationMsg :=
  match q.min with
  | some mn => if jsLtBound num mn then some (ValidationMsg.belowMin mn) else e
  | none => e

/-- The check `q.max !== undefined && num > q.max`, overwriting the
error slot `e` — including a below-minimum message already there — with
the above-maximum message when it fires. -/
def maxCheck (q : Question) (num : JsNum) (e : Option ValidationMsg) : Option ValidationMsg :=
  match q.max with
  | some mx => if jsGtBound num mx then some (ValidationMsg.aboveMax mx) else e
  | none => e

/-- The numeric checks of `validate`, threading the current error-slot
value `e`: guarded by `q.type === 'numeric' && v !== undefined &&
v !== ''`; the finiteness check, the `min` check and the `max` check
each overwrite the one slot in source order — so `NaN` keeps the
invalid-number message (its bound comparisons are false), while an
infinity has it overwritten by a configured bound check that its
comparisons satisfy. -/
def numericError (v : Option Answer) (q : Question) (e : Option ValidationMsg) :
    Option ValidationMsg :=
  if q.type = QType.numeric ∧ v ≠ none ∧ v ≠ some (Answer.str "") then
    match v with
    | some a => maxCheck q (jsNumber a) (minCheck q (jsNumber a) (finiteCheck (jsNumber a) e))
    | none => e
  else e

/-- The text length check of `validate`: guarded by the text types, a
truthy `maxLength` (0 is falsy) and a string value. -/
def lengthError (v : Option Answer) (q : Question) (e : Option ValidationMsg) :
    Option ValidationMsg :=
  match v, q.maxLength with
  | some (Answer.str s), some ml =>
    if (q.type = QType.text ∨ q.type = QType.longText) ∧ ml ≠ 0 then
      if ml < s.length then some (ValidationMsg.tooLong ml) else e
    else e
  | _, _ => e

/-- Final value of the error slot `nextErrors[q.id]` for one question:
the checks run in source order, each overwriting the slot. -/
def questionError (answers : List (String × Answer)) (q : Question) : Option ValidationMsg :=
  let v := lookupAnswer answers q.id
  lengthError v q (numericError v q (requiredError v q))

/-- Questions of the assessment in iteration order (sections in order,
questions within each). -/
def allQuestions (a : Assessment) : List Question :=
  (a.sections.map (fun s => s.questions)).flatten

/-- Assignment `nextErrors[q.id] = msg` on the error record, modelled as
an insertion-ordered association list with key replacement. -/
def upsertError (m : List (String × ValidationMsg)) (k : String) (msg : ValidationMsg) :
    List (String × ValidationMsg) :=
  if m.any (fun p => p.1 == k) then m.map (fun p => if p.1 = k then (k, msg) else p)
  else m ++ [(k, msg)]

/-- One loop iteration of `validate`: hidden questions are skipped
(`continue`), a question whose checks leave the slot unset writes
nothing. -/
def validateStep (answers : List (String × Answer))
    (errs : List (String × ValidationMsg)) (q : Question) :
    List (String × ValidationMsg) :=
  if isVisible answers q then
    match questionError answers q with
    | some msg => upsertError errs q.id msg
    | none => errs
  else errs

/-- The `nextErrors` record produced by `validate`. -/
def validateErrors (answers : List (String × Answer)) (a : Assessment) :
    List (String × ValidationMsg) :=
  (allQuestions a).foldl (validateStep answers) []

/-- Lookup in the error record. -/
def lookupError (m : List (String × ValidationMsg)) (k : String) : Option ValidationMsg :=
  (m.find? (fun p => p.1 == k)).map (fun p => p.2)

/-- The boolean result of `validate`:
`Object.keys(nextErrors).length === 0`. -/
def validate (answers : List (String × Answer)) (a : Assessment) : Bool :=
  (validateErrors answers a).isEmpty

/-- The spec's reading of `contains` on strings: the rule value occurs
as a contiguous substring of the answer. -/
def SubstringOf (pat s : String) : Prop :=
  ∃ x y : List Char, s.toList = x ++ pat.toList ++ y

/-- Final error-slot content for key `k` after scanning the question
list: the last visible question with that id whose checks produced a
message determines it. -/
def errorFor (answers : List (String × Answer)) (qs : List Question) (k : String) :
    Option ValidationMsg :=
  qs.foldl (fun acc q =>
    if isVisible answers q = true ∧ q.id = k then
      match questionError answers q with
      | some msg => some msg
      | none => acc
    else acc) none

/-- A candidate row; `appliedAt`/`updatedAt` timestamps are outside the
model (see the module comment), every other persisted field is
carried.  Stages are the raw strings the wire protocol uses. -/
structure Candidate where
  id : String
  name : String
  email : String
  phone : Option String := none
  currentStage : String
  jobId : String
  notes : Option String := none
deriving DecidableEq

/-- Timeline event kinds (`db.ts`). -/
inductive TEType where
  | stage_change
  | note_added
  | assessment_submitted
deriving DecidableEq

/-- An append-only timeline event; its free-form metadata record is
modelled as a string association list. -/
structure TimelineEvent where
  id : String
  candidateId : String
  type : TEType
  description : String
  metadata : List (String × String) := []
deriving DecidableEq

/-- The update body of `PATCH /api/candidates/:id`: partial fields,
`none` meaning the key is absent from the JSON body. -/
structure CandidateUpdate where
  stage : Option String := none
  currentStage : Option String := none
  name : Option String := none
  email : Option String := none
  phone : Option String := none
  notes : Option String := none
deriving DecidableEq

/-- JavaScript `a || b` on possibly-absent strings: the empty string is
falsy. -/
def jsOrStr (a b : Option String) : Option String :=
  match a with
  | some s => if s ≠ "" then some s else b
  | none => b

/-- The stage the handler derives:
`(updates as any).stage || updates.currentStage`. -/
def newStageOf (u : CandidateUpdate) : Option String :=
  jsOrStr u.stage u.currentStage

/-- Truthiness of the derived stage, guarding the timeline append
(`if (newStage) { ... }`). -/
def truthyNewStage (u : CandidateUpdate) : Option String :=
  match newStageOf u with
  | some s => if s ≠ "" then some s else none
  | none => none

/-- `db.candidates.update(id, { ...updates, currentStage: ... })`:
every key present in the body overwrites the stored field, and the
explicit `currentStage` entry (stage `||` currentStage) overrides the
spread; when it comes out `undefined` the stored stage is kept. -/
def applyCandidateUpdate (c : Candidate) (u : CandidateUpdate) : Candidate :=
  { c with
    name := u.name.getD c.name,
    email := u.email.getD c.email,
    phone := match u.phone with | some p => some p | none => c.phone,
    notes := match u.notes with | some n => some n | none => c.notes,
    currentStage := (newStageOf u).getD c.currentStage }

/-- The `PATCH /api/candidates/:id` handler (success path): 404
(`none`) when the id is absent; otherwise the row is updated and —
whenever the derived stage value is truthy, with no check that it
differs from the stored one — a `stage_change` timeline event is
appended whose metadata records the new stage. -/
def updateCandidateHandler (cands : List Candidate) (events : List TimelineEvent)
    (id : String) (u : CandidateUpdate) (eventId : String) :
    Option (List Candidate × List TimelineEvent) :=
  if cands.any (fun c => c.id == id) then
    let cands2 := cands.map (fun c => if c.id = id then applyCandidateUpdate c u else c)
    let events2 :=
      match truthyNewStage u with
      | some s =>
        events ++ [⟨eventId, id, TEType.stage_change, "Moved to " ++ s, [("newStage", s)]⟩]
      | none => events
    some (cands2, events2)
  else none

/-- The dnd-kit data visible to `handleDragEnd` for one end of the
gesture: the element id, the `data.current?.type` tag, and the
sortable container owning it. -/
structure DragTarget where
  id : String
  dataType : Option String := none
  sortableContainerId : Option String := none
deriving DecidableEq

structure DragEndEvent where
  active : DragTarget
  over : Option DragTarget
deriving DecidableEq

/-- `handleDragEnd` of CandidatesKanban: the destination container is
the drop target itself when it is a column, else the column owning the
card under the pointer; drops outside any container, with an
unresolvable (falsy) container, or within the source container issue no
mutation; otherwise one mutation sets `currentStage` to the destination
container id. -/
def handleDragEnd (ev : DragEndEvent) : Option (String × String) :=
  match ev.over with
  | none => none
  | some over =>
    let activeContainerId := ev.active.sortableContainerId
    let overContainerId :=
      if over.dataType = some "container" then some over.id
      else over.sortableContainerId
    match activeContainerId, overContainerId with
    | some a, some o =>
      if a = "" ∨ o = "" ∨ a = o then none
      else some (ev.active.id, o)
    | _, _ => none

/-- The mutation body the Kanban issues for a resolved gesture:
`{ currentStage: newStage }`. -/
def kanbanMutation (p : String × String) : CandidateUpdate :=
  { currentStage := some p.2 }

/-- Pagination metadata returned with collection reads. -/
structure Pagination where
  page : Nat
  pageSize : Nat
  total : Nat
  totalPages : Nat
deriving DecidableEq

/-- The jobs collection view cached under the active jobs query key. -/
structure JobsQueryData where
  data : List Job
  pagination : Pagination
deriving DecidableEq

/-- The candidates collection view cached under `['candidates']`. -/
structure CandidatesResponse where
  data : List Candidate
  pagination : Pagination
deriving DecidableEq

/-- Variables of the JobsPage reorder mutation. -/
structure ReorderVars where
  id : String
  newOrder : Nat
deriving DecidableEq

/-- The optimistic updater of `reorderMutation.onMutate` (JobsPage):
finds the dragged job's index in the cached page and array-moves it to
the destination index, keeping every other field of the cached object;
an absent job (`findIndex === -1`) leaves the data unchanged. -/
def reorderOptimistic (vars : ReorderVars) (old : JobsQueryData) : JobsQueryData :=
  match old.data.findIdx? (fun job => job.id == vars.id) with
  | none => old
  | some oldIndex => { old with data := arrayMove old.data oldIndex vars.newOrder }

/-- The failure path of the JobsPage reorder mutation: `onMutate`
snapshots the cached view under the active query key and applies the
optimistic update (the `setQueryData` updater leaves an absent entry
absent); on error the snapshot, when one was captured, is written back,
and exactly one failure toast is emitted. -/
def reorderMutationFailure (cache : Option JobsQueryData) (vars : ReorderVars) :
    Option JobsQueryData × Nat :=
  let previousJobsData := cache
  let afterOptimistic := cache.map (reorderOptimistic vars)
  let restored :=
    match previousJobsData with
    | some p => some p
    | none => afterOptimistic
  (restored, 1)

/-- The optimistic updater of `updateCandidateMutation.onMutate`
(CandidatesKanban): the client-side spread `{ ...c, ...candidate }`
merged into the matching candidate of the cached list. -/
def clientMergeCandidate (c : Candidate) (u : CandidateUpdate) : Candidate :=
  { c with
    name := u.name.getD c.name,
    email := u.email.getD c.email,
    phone := match u.phone with | some p => some p | none => c.phone,
    notes := match u.notes with | some n => some n | none => c.notes,
    currentStage := u.currentStage.getD c.currentStage }

def candidatesOptimistic (id : String) (u : CandidateUpdate) (old : CandidatesResponse) :
    CandidatesResponse :=
  { old with data := old.data.map (fun c => if c.id = id then clientMergeCandidate c u else c) }

/-- The failure path of the Kanban candidate mutation, with the same
snapshot / optimistic-apply / restore shape as the jobs reorder. -/
def candidateMutationFailure (cache : Option CandidatesResponse) (id : String)
    (u : CandidateUpdate) : Option CandidatesResponse × Nat :=
  let previousCandidatesResponse := cache
  let afterOptimistic := cache.map (candidatesOptimistic id u)
  let restored :=
    match previousCandidatesResponse with
    | some p => some p
    | none => afterOptimistic
  (restored, 1)

/-- JavaScript `a || d` with a string default: an absent or empty
`a` falls back to `d`. -/
def jsStrOr (a : Option String) (d : String) : String :=
  match a with
  | some s => if s ≠ "" then s else d
  | none => d

/-- The body of `PUT /api/assessments/:jobId`: partial fields, `none`
meaning the key is absent from the JSON body. -/
structure AssessmentBody where
  title : Option String := none
  description : Option String := none
  sections : Option (List AssessmentSection) := none
deriving DecidableEq

/-- The `PUT /api/assessments/:jobId` handler (success path): when an
assessment for the job exists it is updated in place with
`{ ...existing, ...body }`; otherwise a new one is created with
fallbacks for missing or falsy fields (`body.title || 'Assessment'`,
`body.description || ''`, `body.sections || []`). -/
def putAssessmentHandler (assessments : List Assessment) (jobId : String)
    (body : AssessmentBody) (newId : String) : List Assessment :=
  match assessments.find? (fun a2 => a2.jobId == jobId) with
  | some existing =>
    let updated : Assessment :=
      { existing with
        title := body.title.getD existing.title,
        description := body.description.getD existing.description,
        sections := body.sections.getD existing.sections }
    assessments.map (fun a2 => if a2.id = existing.id then updated else a2)
  | none =>
    assessments ++
      [⟨newId, jobId, jsStrOr body.title "Assessment", body.description.getD "",
        body.sections.getD []⟩]

/-- The `deleteSection` handler of the assessment builder: removes the
sections whose id matches (`filter(s => s.id !== sectionId)`), keeping
every other section object untouched and performing no reindexing. -/
def deleteSection (a : Assessment) (sectionId : String) : Assessment :=
  { a with sections := a.sections.filter (fun s => s.id != sectionId) }

/-- In a list whose `g`-keys are pairwise distinct, `find?` on the key
of a member returns exactly that member. -/
theorem find?_key {α β : Type} [BEq β] [LawfulBEq β] (g : α → β) (l : List α) (a : α)
    (hnd : (l.map g).Nodup) (ha : a ∈ l) :
    l.find? (fun x => g x == g a) = some a := by
  induction l with
  | nil => cases ha
  | cons b t ih =>
    have hnd' := hnd
    rw [List.map_cons, List.nodup_cons] at hnd'
    rcases List.mem_cons.mp ha with rfl | hat
    · exact List.find?_cons_of_pos _ (by simp)
    · have hne : (g b == g a) = false := by
        apply beq_false_of_ne
        intro hgeq
        exact hnd'.1 (hgeq ▸ List.mem_map_of_mem g hat)
      rw [List.find?_cons_of_neg _ (by simp [hne])]
      exact ih hnd'.2 hat

/-- A `filterMap` whose function succeeds on every element is a `map`. -/
theorem filterMap_eq_map_iget {α β : Type} [Inhabited β] (f : α → Option β) (l : List α)
    (h : ∀ a ∈ l, (f a).isSome) :
    l.filterMap f = l.map (fun a => (f a).iget) := by
  induction l with
  | nil => rfl
  | cons b t ih =>
    rcases Option.isSome_iff_exists.mp (h b (List.mem_cons_self b t)) with ⟨x, hx⟩
    rw [List.filterMap_cons, List.map_cons, hx, ih (fun a ha => h a (List.mem_cons_of_mem b ha))]

theorem map_pred_range' (s k : Nat) :
    (List.range' (s + 1) k).map (fun o => o - 1) = List.range' s k := by
  induction k generalizing s with
  | zero => rfl
  | succ k ih =>
    rw [List.range'_succ, List.range'_succ, List.map_cons]
    simp only [Nat.add_sub_cancel]
    rw [ih (s + 1)]

theorem map_succ_range' (s k : Nat) :
    (List.range' s k).map (fun o => o + 1) = List.range' (s + 1) k := by
  induction k generalizing s with
  | zero => rfl
  | succ k ih =>
    rw [List.range'_succ, List.range'_succ, List.map_cons, ih (s + 1)]

theorem range'_split (s m k : Nat) (h : m ≤ k) :
    List.range' s k = List.range' s m ++ List.range' (s + m) (k - m) := by
  have h1 := List.range'_append s m (k - m) 1
  have h2 : k - m + m = k := by omega
  simp only [one_mul, h2] at h1
  exact h1.symm

/-- Moving one position of `{0, ..., n-1}` to another permutes the
range: the heart of the order-density invariant. -/
theorem movedOrder_range_perm (n i j : Nat) (hi : i < n) (hj : j < n) :
    List.Perm ((List.range n).map (movedOrder i j)) (List.range n) := by
  rcases Nat.lt_trichotomy i j with hij | rfl | hij
  · -- moved down the list: i < j
    have d1 : List.range' 0 n = List.range' 0 i ++ List.range' i (n - i) := by
      have h := range'_split 0 i n (by omega)
      simpa using h
    have d2 : List.range' i (n - i) = [i] ++ List.range' (i + 1) (n - i - 1) := by
      have h := range'_split i 1 (n - i) (by omega)
      simpa [List.range'_one] using h
    have d3 : List.range' (i + 1) (n - i - 1)
        = List.range' (i + 1) (j - i) ++ List.range' (j + 1) (n - j - 1) := by
      have h := range'_split (i + 1) (j - i) (n - i - 1) (by omega)
      have e1 : i + 1 + (j - i) = j + 1 := by omega
      have e2 : n - i - 1 - (j - i) = n - j - 1 := by omega
      rw [e1, e2] at h
      exact h
    have m1 : (List.range' 0 i).map (movedOrder i j) = List.range' 0 i := by
      have hcong : ∀ o ∈ List.range' 0 i, movedOrder i j o = o := by
        intro o ho
        have hb := List.mem_range'_1.mp ho
        unfold movedOrder shiftVal
        split_ifs <;> omega
      rw [List.map_congr_left hcong, List.map_id']
    have m2 : ([i]).map (movedOrder i j) = [j] := by
      simp [movedOrder]
    have m3 : (List.range' (i + 1) (j - i)).map (movedOrder i j) = List.range' i (j - i) := by
      have hcong : ∀ o ∈ List.range' (i + 1) (j - i), movedOrder i j o = o - 1 := by
        intro o ho
        have hb := List.mem_range'_1.mp ho
        unfold movedOrder shiftVal
        split_ifs <;> omega
      rw [List.map_congr_left hcong, map_pred_range']
    have m4 : (List.range' (j + 1) (n - j - 1)).map (movedOrder i j)
        = List.range' (j + 1) (n - j - 1) := by
      have hcong : ∀ o ∈ List.range' (j + 1) (n - j - 1), movedOrder i j o = o := by
        intro o ho
        have hb := List.mem_range'_1.mp ho
        unfold movedOrder shiftVal
        split_ifs <;> omega
      rw [List.map_congr_left hcong, List.map_id']
    have hL : (List.range n).map (movedOrder i j)
        = List.range' 0 i
          ++ ([j] ++ (List.range' i (j - i) ++ List.range' (j + 1) (n - j - 1))) := by
      rw [List.range_eq_range', d1, d2, d3]
      simp only [List.map_append, m1, m2, m3, m4, List.append_assoc]
    have e5 : List.range' i (j - i) ++ [j] = List.range' i (j - i + 1) := by
      have h := List.range'_1_concat i (j - i)
      have e : i + (j - i) = j := by omega
      rw [e] at h
      exact h.symm
    have hR : List.range' 0 i
        ++ ((List.range' i (j - i) ++ [j]) ++ List.range' (j + 1) (n - j - 1))
        = List.range n := by
      rw [e5, List.range_eq_range']
      have s1 : List.range' 0 (j + 1) = List.range' 0 i ++ List.range' i (j - i + 1) := by
        have h := range'_split 0 i (j + 1) (by omega)
        have e : j + 1 - i = j - i + 1 := by omega
        simpa [e] using h
      have s2 : List.range' 0 n = List.range' 0 (j + 1) ++ List.range' (j + 1) (n - j - 1) := by
        have h := range'_split 0 (j + 1) n (by omega)
        have e : n - (j + 1) = n - j - 1 := by omega
        simpa [e] using h
      rw [s2, s1, List.append_assoc]
    rw [hL]
    have hstep : List.Perm
        ([j] ++ (List.range' i (j - i) ++ List.range' (j + 1) (n - j - 1)))
        ((List.range' i (j - i) ++ [j]) ++ List.range' (j + 1) (n - j - 1)) := by
      have h0 := List.Perm.append_right (List.range' (j + 1) (n - j - 1))
        (@List.perm_append_comm _ [j] (List.range' i (j - i)))
      rwa [List.append_assoc] at h0
    exact hR ▸ List.Perm.append_left _ hstep
  · -- no-op: i = j, the map is the identity on the range
    have hcong : ∀ o ∈ List.range n, movedOrder i i o = o := by
      intro o _
      unfold movedOrder shiftVal
      split_ifs <;> omega
    rw [List.map_congr_left hcong, List.map_id']
  · -- moved up the list: j < i
    have d1 : List.range' 0 n = List.range' 0 j ++ List.range' j (n - j) := by
      have h := range'_split 0 j n (by omega)
      simpa using h
    have d2 : List.range' j (n - j) = List.range' j (i - j) ++ List.range' i (n - i) := by
      have h := range'_split j (i - j) (n - j) (by omega)
      have e1 : j + (i - j) = i := by omega
      have e2 : n - j - (i - j) = n - i := by omega
      rw [e1, e2] at h
      exact h
    have d3 : List.range' i (n - i) = [i] ++ List.range' (i + 1) (n - i - 1) := by
      have h := range'_split i 1 (n - i) (by omega)
      simpa [List.range'_one] using h
    have m1 : (List.range' 0 j).map (movedOrder i j) = List.range' 0 j := by
      have hcong : ∀ o ∈ List.range' 0 j, movedOrder i j o = o := by
        intro o ho
        have hb := List.mem_range'_1.mp ho
        unfold movedOrder shiftVal
        split_ifs <;> omega
      rw [List.map_congr_left hcong, List.map_id']
    have m2 : (List.range' j (i - j)).map (movedOrder i j) = List.range' (j + 1) (i - j) := by
      have hcong : ∀ o ∈ List.range' j (i - j), movedOrder i j o = o + 1 := by
        intro o ho
        have hb := List.mem_range'_1.mp ho
        unfold movedOrder shiftVal
        split_ifs <;> omega
      rw [List.map_congr_left hcong, map_succ_range']
    have m3 : ([i]).map (movedOrder i j) = [j] := by
      simp [movedOrder]
    have m4 : (List.range' (i + 1) (n - i - 1)).map (movedOrder i j)
        = List.range' (i + 1) (n - i - 1) := by
      have hcong : ∀ o ∈ List.range' (i + 1) (n - i - 1), movedOrder i j o = o := by
        intro o ho
        have hb := List.mem_range'_1.mp ho
        unfold movedOrder shiftVal
        split_ifs <;> omega
      rw [List.map_congr_left hcong, List.map_id']
    have hL : (List.range n).map (movedOrder i j)
        = List.range' 0 j
          ++ (List.range' (j + 1) (i - j) ++ ([j] ++ List.range' (i + 1) (n - i - 1))) := by
      rw [List.range_eq_range', d1, d2, d3]
      simp only [List.map_append, m1, m2, m3, m4, List.append_assoc]
    have e5 : [j] ++ List.range' (j + 1) (i - j) = List.range' j (i - j + 1) := by
      have h := List.range'_succ j (i - j) 1
      simpa using h.symm
    have hR : List.range' 0 j
        ++ (([j] ++ List.range' (j + 1) (i - j)) ++ List.range' (i + 1) (n - i - 1))
        = List.range n := by
      rw [e5, List.range_eq_range']
      have s1 : List.range' 0 (i + 1) = List.range' 0 j ++ List.range' j (i - j + 1) := by
        have h := range'_split 0 j (i + 1) (by omega)
        have e : i + 1 - j = i - j + 1 := by omega
        simpa [e] using h
      have s2 : List.range' 0 n = List.range' 0 (i + 1) ++ List.range' (i + 1) (n - i - 1) := by
        have h := range'_split 0 (i + 1) n (by omega)
        have e : n - (i + 1) = n - i - 1 := by omega
        simpa [e] using h
      rw [s2, s1, List.append_assoc]
    rw [hL]
    have hstep : List.Perm
        (List.range' (j + 1) (i - j) ++ ([j] ++ List.range' (i + 1) (n - i - 1)))
        (([j] ++ List.range' (j + 1) (i - j)) ++ List.range' (i + 1) (n - i - 1)) := by
      have h0 := List.Perm.append_right (List.range' (i + 1) (n - i - 1))
        (@List.perm_append_comm _ (List.range' (j + 1) (i - j)) [j])
      rwa [List.append_assoc] at h0
    exact hR ▸ List.Perm.append_left _ hstep

theorem maxOrderJob?_eq_none_iff (jobs : List Job) : maxOrderJob? jobs = none ↔ jobs = [] := by
  cases jobs with
  | nil => simp [maxOrderJob?]
  | cons j rest =>
    simp only [maxOrderJob?]
    cases maxOrderJob? rest with
    | none => simp
    | some m => by_cases h : m.order < j.order <;> simp [h]

theorem maxOrderJob?_mem : ∀ (jobs : List Job) (mj : Job),
    maxOrderJob? jobs = some mj → mj ∈ jobs := by
  intro jobs
  induction jobs with
  | nil => intro mj h; cases h
  | cons j rest ih =>
    intro mj h
    simp only [maxOrderJob?] at h
    cases hrec : maxOrderJob? rest with
    | none =>
      rw [hrec] at h
      cases h
      exact List.mem_cons_self _ _
    | some m =>
      rw [hrec] at h
      have h2 : (if m.order < j.order then some j else some m) = some mj := h
      by_cases hlt : m.order < j.order
      · rw [if_pos hlt] at h2
        cases h2
        exact List.mem_cons_self _ _
      · rw [if_neg hlt] at h2
        cases h2
        exact List.mem_cons_of_mem _ (ih _ hrec)

theorem maxOrderJob?_ge : ∀ (jobs : List Job) (mj : Job),
    maxOrderJob? jobs = some mj → ∀ jb ∈ jobs, jb.order ≤ mj.order := by
  intro jobs
  induction jobs with
  | nil => intro mj h; cases h
  | cons j rest ih =>
    intro mj h jb hjb
    simp only [maxOrderJob?] at h
    cases hrec : maxOrderJob? rest with
    | none =>
      have hrest : rest = [] := (maxOrderJob?_eq_none_iff rest).mp hrec
      rw [hrec] at h
      cases h
      rcases List.mem_cons.mp hjb with rfl | hmem
      · exact Nat.le_refl _
      · rw [hrest] at hmem
        cases hmem
    | some m =>
      rw [hrec] at h
      have h2 : (if m.order < j.order then some j else some m) = some mj := h
      by_cases hlt : m.order < j.order
      · rw [if_pos hlt] at h2
        cases h2
        rcases List.mem_cons.mp hjb with rfl | hmem
        · exact Nat.le_refl _
        · exact Nat.le_of_lt (Nat.lt_of_le_of_lt (ih m hrec jb hmem) hlt)
      · rw [if_neg hlt] at h2
        cases h2
        rcases List.mem_cons.mp hjb with rfl | hmem
        · omega
        · exact ih _ hrec jb hmem

/-- Every order value of a dense table is below the table size. -/
theorem DenseOrders.order_lt {jobs : List Job} (hd : DenseOrders jobs) :
    ∀ jb ∈ jobs, jb.order < jobs.length := by
  intro jb hjb
  have hmem : jb.order ∈ jobs.map Job.order := List.mem_map_of_mem Job.order hjb
  have := hd.mem_iff.mp hmem
  exact List.mem_range.mp this

/-- A dense table holds a job for every order value below its size. -/
theorem DenseOrders.exists_order {jobs : List Job} (hd : DenseOrders jobs) :
    ∀ k < jobs.length, ∃ jb ∈ jobs, jb.order = k := by
  intro k hk
  have hmem : k ∈ jobs.map Job.order := hd.mem_iff.mpr (List.mem_range.mpr hk)
  rcases List.mem_map.mp hmem with ⟨jb, hjb, hordeq⟩
  exact ⟨jb, hjb, hordeq⟩

/-- Order values of a dense table are pairwise distinct. -/
theorem DenseOrders.nodup_orders {jobs : List Job} (hd : DenseOrders jobs) :
    (jobs.map Job.order).Nodup :=
  hd.symm.nodup (List.nodup_range _)

/-- On a dense table the new job's order is exactly the table size:
"one greater than the current maximum, 0 when no jobs exist". -/
theorem dense_nextJobOrder {jobs : List Job} (hd : DenseOrders jobs) :
    nextJobOrder jobs = jobs.length := by
  cases hjobs : jobs with
  | nil => simp [nextJobOrder, maxOrderJob?]
  | cons j rest =>
    have hne : jobs ≠ [] := by simp [hjobs]
    rw [← hjobs]
    cases hmax : maxOrderJob? jobs with
    | none => exact absurd ((maxOrderJob?_eq_none_iff jobs).mp hmax) hne
    | some m =>
      have hmem := maxOrderJob?_mem jobs m hmax
      have hlt : m.order < jobs.length := hd.order_lt m hmem
      have hlen : 0 < jobs.length := by simp [hjobs]
      rcases hd.exists_order (jobs.length - 1) (by omega) with ⟨jb, hjb, hjbord⟩
      have hge := maxOrderJob?_ge jobs m hmax jb hjb
      simp only [nextJobOrder, hmax]
      omega

theorem applyShift_order (i j : Nat) (jb : Job) :
    (applyShift i j jb).order = shiftVal i j jb.order := by
  unfold applyShift shiftVal
  split_ifs <;> rfl

theorem applyShift_id (i j : Nat) (jb : Job) : (applyShift i j jb).id = jb.id := by
  unfold applyShift
  split_ifs <;> rfl

theorem reorderElem_id (id : String) (i j : Nat) (jb : Job) :
    (reorderElem id i j jb).id = jb.id := by
  unfold reorderElem
  split_ifs <;> simp [applyShift_id]

/-- The transaction leaves the list of job ids unchanged (same jobs,
same positions in the table). -/
theorem reorderTransaction_map_id (jobs : List Job) (id : String) (i j : Nat) :
    (reorderTransaction jobs id i j).map Job.id = jobs.map Job.id := by
  unfold reorderTransaction
  rw [List.map_map]
  exact List.map_congr_left (fun jb _ => reorderElem_id id i j jb)

/-- With distinct ids and distinct orders, the transaction changes the
order of the row with old order `o` to exactly `movedOrder i j o`. -/
theorem reorderElem_order_of_mem (jobs : List Job) (hids : (jobs.map Job.id).Nodup)
    (horders : (jobs.map Job.order).Nodup) (m : Job) (hm : m ∈ jobs) (j : Nat)
    (jb : Job) (hjb : jb ∈ jobs) :
    (reorderElem m.id m.order j jb).order = movedOrder m.order j jb.order := by
  unfold reorderElem
  by_cases hid : jb.id = m.id
  · have heq : jb = m := List.inj_on_of_nodup_map hids hjb hm hid
    subst heq
    rw [if_pos rfl]
    simp [movedOrder]
  · rw [if_neg hid]
    have hord : jb.order ≠ m.order := by
      intro he
      exact hid (congrArg Job.id (List.inj_on_of_nodup_map horders hjb hm he))
    rw [applyShift_order]
    unfold movedOrder
    rw [if_neg hord]

theorem reorderTransaction_map_order (jobs : List Job) (hids : (jobs.map Job.id).Nodup)
    (horders : (jobs.map Job.order).Nodup) (m : Job) (hm : m ∈ jobs) (j : Nat) :
    (reorderTransaction jobs m.id m.order j).map Job.order
      = (jobs.map Job.order).map (movedOrder m.order j) := by
  unfold reorderTransaction
  rw [List.map_map, List.map_map]
  exact List.map_congr_left (fun jb hjb => by
    simp only [Function.comp_apply]
    exact reorderElem_order_of_mem jobs hids horders m hm j jb hjb)

/-- Order density is preserved by the reorder transaction whenever the
request carries the moved job's true current order and an in-range
destination. -/
theorem reorder_preserves_dense (jobs : List Job) (hids : (jobs.map Job.id).Nodup)
    (hd : DenseOrders jobs) (m : Job) (hm : m ∈ jobs) (j : Nat)
    (hj : j < jobs.length) :
    DenseOrders (reorderTransaction jobs m.id m.order j) := by
  have hi : m.order < jobs.length := hd.order_lt m hm
  unfold DenseOrders
  have hlen : (reorderTransaction jobs m.id m.order j).length = jobs.length := by
    unfold reorderTransaction
    exact List.length_map _ _
  rw [hlen, reorderTransaction_map_order jobs hids hd.nodup_orders m hm j]
  exact (List.Perm.map (movedOrder m.order j) hd).trans
    (movedOrder_range_perm jobs.length m.order j hi hj)

/-- C2.  Order density: starting from any table whose order values are
exactly `{0, ..., n-1}`, a completed reorder (with `fromOrder` the moved
job's current order and `toOrder` in range) yields order values that are
again exactly `{0, ..., n-1}`; job creation assigns order
`max + 1` (i.e. `n`, and 0 on an empty table), which keeps the extended
table dense. -/
theorem order_density_invariant (jobs : List Job) (hids : (jobs.map Job.id).Nodup)
    (hd : DenseOrders jobs) (m : Job) (hm : m ∈ jobs) (toOrder : Nat)
    (ht : toOrder < jobs.length) (newId : String) :
    (∃ jobs2, reorderJobHandler jobs m.id m.order toOrder = some jobs2 ∧ DenseOrders jobs2) ∧
    nextJobOrder jobs = jobs.length ∧
    DenseOrders (createJob jobs newId) := by
  refine ⟨⟨reorderTransaction jobs m.id m.order toOrder, ?_,
    reorder_preserves_dense jobs hids hd m hm toOrder ht⟩, dense_nextJobOrder hd, ?_⟩
  · have hc : jobs.any (fun j => j.id == m.id) = true :=
      List.any_eq_true.mpr ⟨m, hm, by simp⟩
    simp [reorderJobHandler, hc]
  · unfold DenseOrders createJob
    rw [List.map_append, dense_nextJobOrder hd, List.length_append]
    simp only [List.map_cons, List.map_nil, List.length_cons, List.length_nil]
    rw [List.range_succ]
    exact List.Perm.append_right _ hd

/-- Witness: a concrete dense three-job table, reordered and extended. -/
theorem order_density_invariant_witness :
    (∃ jobs2, reorderJobHandler [⟨"a", 0⟩, ⟨"b", 1⟩, ⟨"c", 2⟩] "a" 0 2 = some jobs2 ∧
      DenseOrders jobs2) ∧
    nextJobOrder [⟨"a", 0⟩, ⟨"b", 1⟩, ⟨"c", 2⟩] = 3 ∧
    DenseOrders (createJob [⟨"a", 0⟩, ⟨"b", 1⟩, ⟨"c", 2⟩] "d") :=
  order_density_invariant [⟨"a", 0⟩, ⟨"b", 1⟩, ⟨"c", 2⟩] (by decide)
    (by unfold DenseOrders; decide) ⟨"a", 0⟩ (by decide) 2 (by decide) "d"

theorem hFun_lt (i j k n : Nat) (hi : i < n) (hj : j < n) (hk : k < n) : hFun i j k < n := by
  simp only [hFun]
  split_ifs <;> omega

theorem movedOrder_hFun (i j k n : Nat) (hi : i < n) (hj : j < n) (hk : k < n) :
    movedOrder i j (hFun i j k) = k := by
  simp only [movedOrder, shiftVal, hFun]
  split_ifs <;> omega

theorem arrayMove_length {α : Type} (l : List α) (i j : Nat) (hi : i < l.length)
    (hj : j < l.length) : (arrayMove l i j).length = l.length := by
  have hx : l[i]? = some l[i] := List.getElem?_eq_getElem hi
  unfold arrayMove
  rw [hx]
  simp only [List.length_append, List.length_take, List.length_cons, List.length_drop]
  omega

/-- Index-level description of a remove-at-`i`, reinsert-at-`j` move:
the element now at index `k` is the element that was at `hFun i j k`. -/
theorem arrayMove_getElem? {α : Type} (l : List α) (i j k : Nat) (hi : i < l.length)
    (hj : j < l.length) (hk : k < l.length) :
    (arrayMove l i j)[k]? = l[hFun i j k]? := by
  have hx : l[i]? = some l[i] := List.getElem?_eq_getElem hi
  have hred : arrayMove l i j
      = (l.take i ++ l.drop (i + 1)).take j ++ l[i] :: (l.take i ++ l.drop (i + 1)).drop j := by
    unfold arrayMove
    rw [hx]
  rw [hred]
  have hrlen : (l.take i ++ l.drop (i + 1)).length = l.length - 1 := by
    rw [List.length_append, List.length_take, List.length_drop]
    omega
  have hrent : ∀ k', (l.take i ++ l.drop (i + 1))[k']? = if k' < i then l[k']? else l[k' + 1]? := by
    intro k'
    by_cases hki : k' < i
    · rw [if_pos hki, List.getElem?_append_left (by rw [List.length_take]; omega)]
      exact List.getElem?_take_of_lt hki
    · rw [if_neg hki, List.getElem?_append_right (by rw [List.length_take]; omega)]
      rw [List.getElem?_drop]
      congr 1
      rw [List.length_take]
      omega
  have htlen : ((l.take i ++ l.drop (i + 1)).take j).length = j := by
    rw [List.length_take]
    omega
  by_cases hkeq : k = j
  · have hh : hFun i j k = i := by
      simp only [hFun]
      split_ifs <;> omega
    have h1 : ((l.take i ++ l.drop (i + 1)).take j
        ++ l[i] :: (l.take i ++ l.drop (i + 1)).drop j)[k]? = some l[i] := by
      rw [List.getElem?_append_right (by rw [htlen]; omega), htlen]
      have hz : k - j = 0 := by omega
      rw [hz]
      exact List.getElem?_cons_zero
    rw [h1, hh, List.getElem?_eq_getElem hi]
  · by_cases hkj : k < j
    · have h1 : ((l.take i ++ l.drop (i + 1)).take j
          ++ l[i] :: (l.take i ++ l.drop (i + 1)).drop j)[k]?
          = (l.take i ++ l.drop (i + 1))[k]? := by
        rw [List.getElem?_append_left (by rw [htlen]; omega)]
        exact List.getElem?_take_of_lt hkj
      rw [h1, hrent k]
      by_cases hki : k < i
      · have hh : hFun i j k = k := by
          simp only [hFun]
          split_ifs <;> omega
        rw [hh, if_pos hki]
      · have hh : hFun i j k = k + 1 := by
          simp only [hFun]
          split_ifs <;> omega
        rw [hh, if_neg hki]
    · have hkgt : j < k := by omega
      have h1 : ((l.take i ++ l.drop (i + 1)).take j
          ++ l[i] :: (l.take i ++ l.drop (i + 1)).drop j)[k]?
          = (l.take i ++ l.drop (i + 1))[k - 1]? := by
        rw [List.getElem?_append_right (by rw [htlen]; omega), htlen]
        have hsub : k - j = (k - j - 1) + 1 := by omega
        rw [hsub, List.getElem?_cons_succ, List.getElem?_drop]
        congr 1
        omega
      rw [h1, hrent (k - 1)]
      by_cases hki : k - 1 < i
      · have hh : hFun i j k = k - 1 := by
          simp only [hFun]
          split_ifs <;> omega
        rw [hh, if_pos hki]
      · have hh : hFun i j k = k := by
          simp only [hFun]
          split_ifs <;> omega
        rw [hh, if_neg hki]
        congr 1
        omega

theorem find?_order_isSome (jobs : List Job)
    (h : ∀ k' < jobs.length, ∃ jb ∈ jobs, jb.order = k') :
    ∀ k ∈ List.range jobs.length,
      ((jobs.find? (fun j => j.order == k)).map Job.id).isSome := by
  intro k hk
  rcases h k (List.mem_range.mp hk) with ⟨jb, hjb, hord⟩
  have hs : (jobs.find? (fun j => j.order == k)).isSome := by
    rw [List.find?_isSome]
    exact ⟨jb, hjb, by simp [hord]⟩
  rcases Option.isSome_iff_exists.mp hs with ⟨x, hx⟩
  simp [hx]

theorem idsByOrder_length (jobs : List Job)
    (h : ∀ k' < jobs.length, ∃ jb ∈ jobs, jb.order = k') :
    (idsByOrder jobs).length = jobs.length := by
  unfold idsByOrder
  rw [filterMap_eq_map_iget _ _ (find?_order_isSome jobs h), List.length_map,
    List.length_range]

theorem idsByOrder_entry (jobs : List Job)
    (h : ∀ k' < jobs.length, ∃ jb ∈ jobs, jb.order = k') (k : Nat)
    (hk : k < jobs.length) :
    (idsByOrder jobs)[k]? = (jobs.find? (fun j => j.order == k)).map Job.id := by
  unfold idsByOrder
  rw [filterMap_eq_map_iget _ _ (find?_order_isSome jobs h), List.getElem?_map,
    List.getElem?_range hk]
  have hs := find?_order_isSome jobs h k (List.mem_range.mpr hk)
  rcases Option.isSome_iff_exists.mp hs with ⟨x, hx⟩
  simp only [Option.map_some']
  rw [hx]

/-- The display sequence after the reorder transaction is exactly the
remove-and-reinsert (array-move) of the previous display sequence. -/
theorem idsByOrder_reorder_eq_arrayMove (jobs : List Job)
    (hids : (jobs.map Job.id).Nodup) (hd : DenseOrders jobs) (m : Job) (hm : m ∈ jobs)
    (j : Nat) (hj : j < jobs.length) :
    idsByOrder (reorderTransaction jobs m.id m.order j)
      = arrayMove (idsByOrder jobs) m.order j := by
  have hi : m.order < jobs.length := hd.order_lt m hm
  have hd2 : DenseOrders (reorderTransaction jobs m.id m.order j) :=
    reorder_preserves_dense jobs hids hd m hm j hj
  have hRlen : (reorderTransaction jobs m.id m.order j).length = jobs.length :=
    List.length_map _ _
  have hLlen : (idsByOrder jobs).length = jobs.length :=
    idsByOrder_length jobs hd.exists_order
  have hRVlen : (idsByOrder (reorderTransaction jobs m.id m.order j)).length
      = jobs.length := by
    rw [idsByOrder_length _ hd2.exists_order, hRlen]
  have hAlen : (arrayMove (idsByOrder jobs) m.order j).length = jobs.length := by
    rw [arrayMove_length _ _ _ (by omega) (by omega), hLlen]
  apply List.ext_getElem?
  intro k
  by_cases hk : k < jobs.length
  · -- the unique old row with order `hFun m.order j k` supplies index `k`
    have hhk : hFun m.order j k < jobs.length := hFun_lt _ _ _ _ hi hj hk
    rcases hd.exists_order (hFun m.order j k) hhk with ⟨jbk, hjbk, hjbkord⟩
    have hjbk_find : jobs.find? (fun x => x.order == hFun m.order j k) = some jbk := by
      have hf := find?_key Job.order jobs jbk hd.nodup_orders hjbk
      rw [hjbkord] at hf
      exact hf
    have hmemR : reorderElem m.id m.order j jbk ∈ reorderTransaction jobs m.id m.order j :=
      List.mem_map_of_mem _ hjbk
    have hordR : (reorderElem m.id m.order j jbk).order = k := by
      rw [reorderElem_order_of_mem jobs hids hd.nodup_orders m hm j jbk hjbk, hjbkord]
      exact movedOrder_hFun m.order j k jobs.length hi hj hk
    have hfindR : (reorderTransaction jobs m.id m.order j).find? (fun x => x.order == k)
        = some (reorderElem m.id m.order j jbk) := by
      have hf := find?_key Job.order (reorderTransaction jobs m.id m.order j)
        (reorderElem m.id m.order j jbk) hd2.nodup_orders hmemR
      rw [hordR] at hf
      exact hf
    rw [idsByOrder_entry _ hd2.exists_order k (by omega),
      arrayMove_getElem? _ _ _ _ (by omega) (by omega) (by omega),
      idsByOrder_entry _ hd.exists_order (hFun m.order j k) (by omega),
      hfindR, hjbk_find]
    simp [reorderElem_id]
  · rw [List.getElem?_eq_none (by omega), List.getElem?_eq_none (by omega)]

theorem jobOrderOf_reorderTransaction (jobs : List Job) (hids : (jobs.map Job.id).Nodup)
    (id : String) (i j : Nat) (jb : Job) (hjb : jb ∈ jobs) :
    jobOrderOf (reorderTransaction jobs id i j) jb.id
      = some ((reorderElem id i j jb).order) := by
  unfold jobOrderOf
  have hnd : ((reorderTransaction jobs id i j).map Job.id).Nodup := by
    rw [reorderTransaction_map_id]
    exact hids
  have hmem : reorderElem id i j jb ∈ reorderTransaction jobs id i j :=
    List.mem_map_of_mem _ hjb
  have hfind := find?_key Job.id (reorderTransaction jobs id i j) (reorderElem id i j jb)
    hnd hmem
  rw [reorderElem_id] at hfind
  rw [hfind]
  rfl

/-- C1.  Job reorder correctness: with `i` the moved job's current order
and `j` the destination, the completed reorder is a no-op on order
assignments when `i = j`; when `i < j` it decrements exactly the orders
in `(i, j]`; when `i > j` it increments exactly the orders in `[j, i)`;
the moved job's order becomes `j`; and the resulting order assignment by
job identity is the remove-and-reinsert (array-move) of the previous
display sequence at position `j`. -/
theorem reorder_correct (jobs : List Job) (hids : (jobs.map Job.id).Nodup)
    (hd : DenseOrders jobs) (m : Job) (hm : m ∈ jobs) (j : Nat) (hj : j < jobs.length) :
    (m.order = j → ∀ jb ∈ jobs,
      jobOrderOf (reorderTransaction jobs m.id m.order j) jb.id = some jb.order) ∧
    jobOrderOf (reorderTransaction jobs m.id m.order j) m.id = some j ∧
    (m.order < j → ∀ jb ∈ jobs, jb.id ≠ m.id →
      jobOrderOf (reorderTransaction jobs m.id m.order j) jb.id
        = some (if m.order < jb.order ∧ jb.order ≤ j then jb.order - 1 else jb.order)) ∧
    (j < m.order → ∀ jb ∈ jobs, jb.id ≠ m.id →
      jobOrderOf (reorderTransaction jobs m.id m.order j) jb.id
        = some (if j ≤ jb.order ∧ jb.order < m.order then jb.order + 1 else jb.order)) ∧
    idsByOrder (reorderTransaction jobs m.id m.order j)
      = arrayMove (idsByOrder jobs) m.order j := by
  have horders := hd.nodup_orders
  refine ⟨?_, ?_, ?_, ?_, idsByOrder_reorder_eq_arrayMove jobs hids hd m hm j hj⟩
  · intro heq jb hjb
    rw [jobOrderOf_reorderTransaction jobs hids m.id m.order j jb hjb,
      reorderElem_order_of_mem jobs hids horders m hm j jb hjb]
    have : movedOrder m.order j jb.order = jb.order := by
      simp only [movedOrder, shiftVal]
      split_ifs <;> omega
    rw [this]
  · rw [jobOrderOf_reorderTransaction jobs hids m.id m.order j m hm]
    simp [reorderElem]
  · intro hij jb hjb hne
    rw [jobOrderOf_reorderTransaction jobs hids m.id m.order j jb hjb,
      reorderElem_order_of_mem jobs hids horders m hm j jb hjb]
    have hordne : jb.order ≠ m.order := by
      intro he
      exact hne (congrArg Job.id (List.inj_on_of_nodup_map horders hjb hm he))
    have : movedOrder m.order j jb.order
        = if m.order < jb.order ∧ jb.order ≤ j then jb.order - 1 else jb.order := by
      simp only [movedOrder, shiftVal]
      split_ifs <;> omega
    rw [this]
  · intro hij jb hjb hne
    rw [jobOrderOf_reorderTransaction jobs hids m.id m.order j jb hjb,
      reorderElem_order_of_mem jobs hids horders m hm j jb hjb]
    have hordne : jb.order ≠ m.order := by
      intro he
      exact hne (congrArg Job.id (List.inj_on_of_nodup_map horders hjb hm he))
    have : movedOrder m.order j jb.order
        = if j ≤ jb.order ∧ jb.order < m.order then jb.order + 1 else jb.order := by
      simp only [movedOrder, shiftVal]
      split_ifs <;> omega
    rw [this]

/-- Witness: the spec's own example — orders `[0, 1, 2, 3]`, moving
index 0 to index 2 gives the display sequence `b, c, a, d`. -/
theorem reorder_correct_witness :
    idsByOrder (reorderTransaction [⟨"a", 0⟩, ⟨"b", 1⟩, ⟨"c", 2⟩, ⟨"d", 3⟩] "a" 0 2)
      = arrayMove (idsByOrder [⟨"a", 0⟩, ⟨"b", 1⟩, ⟨"c", 2⟩, ⟨"d", 3⟩]) 0 2 ∧
    idsByOrder (reorderTransaction [⟨"a", 0⟩, ⟨"b", 1⟩, ⟨"c", 2⟩, ⟨"d", 3⟩] "a" 0 2)
      = ["b", "c", "a", "d"] :=
  ⟨(reorder_correct [⟨"a", 0⟩, ⟨"b", 1⟩, ⟨"c", 2⟩, ⟨"d", 3⟩] (by decide)
      (by unfold DenseOrders; decide) ⟨"a", 0⟩ (by decide) 2 (by decide)).2.2.2.2,
    by decide⟩

theorem listStartsWith_iff (l pat : List Char) :
    listStartsWith l pat = true ↔ ∃ rest, l = pat ++ rest := by
  induction pat generalizing l with
  | nil =>
    simp [listStartsWith]
  | cons b bs ih =>
    cases l with
    | nil =>
      simp [listStartsWith]
    | cons a as =>
      simp only [listStartsWith, Bool.and_eq_true]
      constructor
      · rintro ⟨hab, hrest⟩
        rcases (ih as).mp hrest with ⟨rest, hr⟩
        exact ⟨rest, by simp [show a = b from by simpa using hab, hr]⟩
      · rintro ⟨rest, hrest⟩
        rw [List.cons_append] at hrest
        cases hrest
        exact ⟨by simp, (ih _).mpr ⟨rest, rfl⟩⟩

theorem listIncludes_iff (l pat : List Char) :
    listIncludes l pat = true ↔ ∃ x y, l = x ++ pat ++ y := by
  induction l with
  | nil =>
    simp only [listIncludes, listStartsWith_iff]
    constructor
    · rintro ⟨rest, hrest⟩
      exact ⟨[], rest, by simpa using hrest⟩
    · rintro ⟨x, y, hxy⟩
      have := hxy.symm
      rw [List.append_assoc] at this
      rcases List.append_eq_nil.mp this with ⟨hx, hrest⟩
      rcases List.append_eq_nil.mp hrest with ⟨hp, hy⟩
      exact ⟨[], by simp [hp]⟩
  | cons c as ih =>
    simp only [listIncludes, Bool.or_eq_true, listStartsWith_iff, ih]
    constructor
    · rintro (⟨rest, hrest⟩ | ⟨x, y, hxy⟩)
      · exact ⟨[], rest, by simpa using hrest⟩
      · exact ⟨c :: x, y, by simp [hxy]⟩
    · rintro ⟨x, y, hxy⟩
      cases x with
      | nil =>
        exact Or.inl ⟨y, by simpa using hxy⟩
      | cons x0 xs =>
        rw [List.cons_append, List.cons_append] at hxy
        cases hxy
        exact Or.inr ⟨xs, y, rfl⟩

theorem strIncludes_iff (s pat : String) :
    strIncludes s pat = true ↔ SubstringOf pat s := by
  unfold strIncludes SubstringOf
  exact listIncludes_iff _ _

theorem contains_iff_mem {l : List String} {v : String} :
    l.contains v = true ↔ v ∈ l := by
  rw [List.contains_iff_exists_mem_beq]
  constructor
  · rintro ⟨x, hx, hbeq⟩
    rwa [show v = x from by simpa using hbeq]
  · intro hv
    exact ⟨v, hv, by simp⟩

/-- C4.  Conditional visibility semantics: no rule, an empty
`dependsOn`, or an unrecognized operator make a question visible;
`equals` is answer equality or set membership of the rule value;
`not-equals` is its negation (an absent answer differs from every
value); `contains` is set membership or substring containment (an
absent answer makes it false). -/
theorem conditional_visibility (answers : List (String × Answer)) (q : Question) :
    (q.conditionalLogic = none → isVisible answers q = true) ∧
    (∀ logic, q.conditionalLogic = some logic →
      (logic.dependsOn = "" → isVisible answers q = true) ∧
      (logic.dependsOn ≠ "" →
        (logic.condition = "equals" →
          (isVisible answers q = true ↔
            lookupAnswer answers logic.dependsOn = some (Answer.str logic.value) ∨
            ∃ l, lookupAnswer answers logic.dependsOn = some (Answer.multi l) ∧
              logic.value ∈ l)) ∧
        (logic.condition = "not-equals" →
          (isVisible answers q = true ↔
            (∀ s, lookupAnswer answers logic.dependsOn = some (Answer.str s) →
              s ≠ logic.value) ∧
            (∀ l, lookupAnswer answers logic.dependsOn = some (Answer.multi l) →
              logic.value ∉ l))) ∧
        (logic.condition = "contains" →
          (isVisible answers q = true ↔
            (∃ l, lookupAnswer answers logic.dependsOn = some (Answer.multi l) ∧
              logic.value ∈ l) ∨
            (∃ s, lookupAnswer answers logic.dependsOn = some (Answer.str s) ∧
              SubstringOf logic.value s))) ∧
        (logic.condition ≠ "equals" → logic.condition ≠ "not-equals" →
          logic.condition ≠ "contains" → isVisible answers q = true))) := by
  constructor
  · intro h
    simp [isVisible, h]
  · intro logic hlogic
    constructor
    · intro hdep
      simp [isVisible, hlogic, hdep]
    · intro hdep
      have hdepb : (logic.dependsOn == "") = false := by
        simpa using hdep
      refine ⟨?_, ?_, ?_, ?_⟩
      · intro hcond
        simp only [isVisible, hlogic, hdepb, Bool.false_eq_true, if_false, hcond]
        cases hv : lookupAnswer answers logic.dependsOn with
        | none => simp
        | some a =>
          cases a with
          | str s => simp
          | multi l => simp [contains_iff_mem]
      · intro hcond
        have hne : (logic.condition == "equals") = false := by
          simp [hcond]
        simp only [isVisible, hlogic, hdepb, Bool.false_eq_true, if_false, hcond, hne]
        cases hv : lookupAnswer answers logic.dependsOn with
        | none => simp
        | some a =>
          cases a with
          | str s => simp
          | multi l => simp [contains_iff_mem]
      · intro hcond
        have hne1 : (logic.condition == "equals") = false := by
          simp [hcond]
        have hne2 : (logic.condition == "not-equals") = false := by
          simp [hcond]
        simp only [isVisible, hlogic, hdepb, Bool.false_eq_true, if_false, hcond, hne1, hne2]
        cases hv : lookupAnswer answers logic.dependsOn with
        | none => simp
        | some a =>
          cases a with
          | str s => simp [strIncludes_iff]
          | multi l => simp [contains_iff_mem]
      · intro h1 h2 h3
        have hb1 : (logic.condition == "equals") = false := by simpa using h1
        have hb2 : (logic.condition == "not-equals") = false := by simpa using h2
        have hb3 : (logic.condition == "contains") = false := by simpa using h3
        simp [isVisible, hlogic, hdepb, hb1, hb2, hb3]

/-- Witness: the spec's visibility example — Q2 depends on Q1 equalling
"Yes"; it is visible exactly when the answer is "Yes". -/
theorem conditional_visibility_witness :
    isVisible [("q1", Answer.str "Yes")]
      { id := "q2", type := QType.text, required := false,
        conditionalLogic := some { dependsOn := "q1", condition := "equals", value := "Yes" } }
      = true ∧
    isVisible [("q1", Answer.str "No")]
      { id := "q2", type := QType.text, required := false,
        conditionalLogic := some { dependsOn := "q1", condition := "equals", value := "Yes" } }
      = false :=
  ⟨((((conditional_visibility [("q1", Answer.str "Yes")]
      { id := "q2", type := QType.text, required := false,
        conditionalLogic := some { dependsOn := "q1", condition := "equals", value := "Yes" } }).2
      { dependsOn := "q1", condition := "equals", value := "Yes" } rfl).2
      (by decide)).1 rfl).mpr (Or.inl (by decide)),
    by decide⟩

theorem lookupError_cons (p : String × ValidationMsg) (t : List (String × ValidationMsg))
    (k : String) :
    lookupError (p :: t) k = if p.1 = k then some p.2 else lookupError t k := by
  unfold lookupError
  by_cases h : p.1 = k
  · rw [List.find?_cons_of_pos _ (by simp [h]), if_pos h]
    rfl
  · rw [List.find?_cons_of_neg _ (by simp [h]), if_neg h]

theorem lookupError_replaceKey (m : List (String × ValidationMsg)) (k : String)
    (v : ValidationMsg) (k' : String) :
    lookupError (m.map (fun p => if p.1 = k then (k, v) else p)) k'
      = if k' = k then (if m.any (fun p => p.1 == k) then some v else none)
        else lookupError m k' := by
  induction m with
  | nil =>
    simp [lookupError]
  | cons p t ih =>
    rw [List.map_cons, lookupError_cons]
    by_cases hp : p.1 = k
    · rw [if_pos hp]
      by_cases hk' : k' = k
      · rw [if_pos (show (k, v).1 = k' from hk'.symm), if_pos hk']
        have hany : ((p :: t).any fun p => p.1 == k) = true := by
          simp [List.any_cons, hp]
        rw [if_pos hany]
      · rw [if_neg (show ¬(k, v).1 = k' from fun h => hk' h.symm), ih, if_neg hk', if_neg hk',
          lookupError_cons, if_neg (show ¬p.1 = k' from fun h => hk' (h.symm.trans hp))]
    · rw [if_neg hp]
      by_cases hpk' : p.1 = k'
      · rw [if_pos hpk']
        by_cases hk' : k' = k
        · exact absurd (hpk'.trans hk') hp
        · rw [if_neg hk', lookupError_cons, if_pos hpk']
      · rw [if_neg hpk', ih]
        by_cases hk' : k' = k
        · rw [if_pos hk', if_pos hk']
          have hsame : ((p :: t).any fun p => p.1 == k) = (t.any fun p => p.1 == k) := by
            simp [List.any_cons, hp]
          rw [hsame]
        · rw [if_neg hk', if_neg hk', lookupError_cons, if_neg hpk']

theorem lookupError_append_single (m : List (String × ValidationMsg)) (k : String)
    (v : ValidationMsg) (k' : String) :
    lookupError (m ++ [(k, v)]) k'
      = match lookupError m k' with
        | some x => some x
        | none => if k' = k then some v else none := by
  induction m with
  | nil =>
    rw [List.nil_append, lookupError_cons]
    by_cases hk' : k' = k
    · rw [if_pos (show (k, v).1 = k' from hk'.symm)]
      simp [lookupError, hk']
    · rw [if_neg (show ¬(k, v).1 = k' from fun h => hk' h.symm)]
      simp [lookupError, hk']
  | cons p t ih =>
    rw [List.cons_append, lookupError_cons, lookupError_cons]
    by_cases hp : p.1 = k'
    · rw [if_pos hp, if_pos hp]
    · rw [if_neg hp, if_neg hp, ih]

theorem lookupError_upsert (m : List (String × ValidationMsg)) (k : String)
    (v : ValidationMsg) (k' : String) :
    lookupError (upsertError m k v) k' = if k' = k then some v else lookupError m k' := by
  unfold upsertError
  by_cases hany : m.any (fun p => p.1 == k) = true
  · rw [if_pos hany, lookupError_replaceKey]
    by_cases hk' : k' = k
    · rw [if_pos hk', if_pos hany, if_pos hk']
    · rw [if_neg hk', if_neg hk']
  · rw [if_neg hany, lookupError_append_single]
    have hnone : lookupError m k = none := by
      unfold lookupError
      cases hf : m.find? (fun p => p.1 == k) with
      | none => rfl
      | some p =>
        exact absurd (List.any_eq_true.mpr
          ⟨p, List.mem_of_find?_eq_some hf, List.find?_some hf⟩) hany
    by_cases hk' : k' = k
    · rw [if_pos hk', hk', hnone]
      simp
    · rw [if_neg hk']
      cases he : lookupError m k' with
      | some x => rw [if_neg hk']
      | none => rw [if_neg hk']

theorem lookupError_foldl (answers : List (String × Answer)) (qs : List Question)
    (m0 : List (String × ValidationMsg)) (k : String) :
    lookupError (qs.foldl (validateStep answers) m0) k
      = qs.foldl (fun acc q =>
          if isVisible answers q = true ∧ q.id = k then
            match questionError answers q with
            | some msg => some msg
            | none => acc
          else acc) (lookupError m0 k) := by
  induction qs generalizing m0 with
  | nil => rfl
  | cons q t ih =>
    have hstep : lookupError (validateStep answers m0 q) k
        = (if isVisible answers q = true ∧ q.id = k then
            match questionError answers q with
            | some msg => some msg
            | none => lookupError m0 k
          else lookupError m0 k) := by
      unfold validateStep
      by_cases hvis : isVisible answers q = true
      · by_cases hk : q.id = k
        · rw [if_pos hvis, if_pos (And.intro hvis hk)]
          cases hqe : questionError answers q with
          | some msg => rw [lookupError_upsert, if_pos hk.symm]
          | none => rfl
        · rw [if_pos hvis, if_neg (show ¬(isVisible answers q = true ∧ q.id = k) from
            fun h => hk h.2)]
          cases hqe : questionError answers q with
          | some msg => rw [lookupError_upsert, if_neg (fun h => hk h.symm)]
          | none => rfl
      · rw [if_neg hvis, if_neg (show ¬(isVisible answers q = true ∧ q.id = k) from
          fun h => hvis h.1)]
    rw [List.foldl_cons, List.foldl_cons, ih, hstep]

theorem lookupError_validateErrors (answers : List (String × Answer)) (a : Assessment)
    (k : String) :
    lookupError (validateErrors answers a) k = errorFor answers (allQuestions a) k := by
  unfold validateErrors errorFor
  rw [lookupError_foldl]
  rfl

theorem unanswered_str_ne (q : Question) (s : String) (hmc : q.type ≠ QType.multiChoice)
    (hs : s ≠ "") : unanswered (some (Answer.str s)) q = false := by
  have hb : (q.type == QType.multiChoice) = false := by simpa using hmc
  simp [unanswered, hb, hs]

theorem requiredError_of_not_unanswered (v : Option Answer) (q : Question)
    (hun : unanswered v q = false) : requiredError v q = none := by
  simp [requiredError, hun]

theorem requiredError_of_unanswered (v : Option Answer) (q : Question)
    (hreq : q.required = true) (hun : unanswered v q = true) :
    requiredError v q = some ValidationMsg.requiredField := by
  simp [requiredError, hreq, hun]

theorem numericError_of_unanswered (v : Option Answer) (q : Question)
    (hun : unanswered v q = true) (e : Option ValidationMsg) : numericError v q e = e := by
  unfold numericError
  by_cases ht : q.type = QType.numeric
  · have hv : v = none ∨ v = some (Answer.str "") := by
      have hb : (q.type == QType.multiChoice) = false := by simp [ht]
      unfold unanswered at hun
      rw [hb] at hun
      simp only [Bool.false_eq_true, if_false] at hun
      cases v with
      | none => exact Or.inl rfl
      | some a =>
        cases a with
        | str s =>
          simp only [beq_iff_eq] at hun
          exact Or.inr (by rw [hun])
        | multi l => simp at hun
    rcases hv with rfl | rfl
    · rw [if_neg (by simp)]
    · rw [if_neg (by simp)]
  · rw [if_neg (by simp [ht])]

theorem lengthError_of_unanswered (v : Option Answer) (q : Question)
    (hun : unanswered v q = true) (e : Option ValidationMsg) : lengthError v q e = e := by
  unfold lengthError
  cases v with
  | none => cases q.maxLength <;> rfl
  | some a =>
    cases a with
    | multi l => cases q.maxLength <;> rfl
    | str s =>
      cases hml : q.maxLength with
      | none => rfl
      | some ml =>
        show (if (q.type = QType.text ∨ q.type = QType.longText) ∧ ml ≠ 0 then
          if ml < s.length then some (ValidationMsg.tooLong ml) else e else e) = e
        by_cases htext : (q.type = QType.text ∨ q.type = QType.longText) ∧ ml ≠ 0
        · rw [if_pos htext]
          have hs : s = "" := by
            have hb : (q.type == QType.multiChoice) = false := by
              rcases htext.1 with h | h <;> simp [h]
            unfold unanswered at hun
            rw [hb] at hun
            simp only [Bool.false_eq_true, if_false, beq_iff_eq] at hun
            exact hun
          subst hs
          rw [if_neg (by simp)]
        · rw [if_neg htext]

theorem questionError_of_unanswered (answers : List (String × Answer)) (q : Question)
    (hreq : q.required = true) (hun : unanswered (lookupAnswer answers q.id) q = true) :
    questionError answers q = some ValidationMsg.requiredField := by
  show lengthError (lookupAnswer answers q.id) q
    (numericError (lookupAnswer answers q.id) q
      (requiredError (lookupAnswer answers q.id) q)) = some ValidationMsg.requiredField
  rw [requiredError_of_unanswered _ _ hreq hun, numericError_of_unanswered _ _ hun,
    lengthError_of_unanswered _ _ hun]

theorem finiteCheck_ne_required (num : JsNum) (e : Option ValidationMsg)
    (he : e ≠ some ValidationMsg.requiredField) :
    finiteCheck num e ≠ some ValidationMsg.requiredField := by
  unfold finiteCheck
  cases h : num.isFinite
  · rw [if_neg (by simp [h])]
    simp
  · rw [if_pos rfl]
    exact he

theorem minCheck_ne_required (q : Question) (num : JsNum) (e : Option ValidationMsg)
    (he : e ≠ some ValidationMsg.requiredField) :
    minCheck q num e ≠ some ValidationMsg.requiredField := by
  unfold minCheck
  cases q.min with
  | none => exact he
  | some mn =>
    show (if jsLtBound num mn then some (ValidationMsg.belowMin mn) else e)
      ≠ some ValidationMsg.requiredField
    cases h : jsLtBound num mn
    · rw [if_neg (by simp [h])]
      exact he
    · rw [if_pos rfl]
      simp

theorem maxCheck_ne_required (q : Question) (num : JsNum) (e : Option ValidationMsg)
    (he : e ≠ some ValidationMsg.requiredField) :
    maxCheck q num e ≠ some ValidationMsg.requiredField := by
  unfold maxCheck
  cases q.max with
  | none => exact he
  | some mx =>
    show (if jsGtBound num mx then some (ValidationMsg.aboveMax mx) else e)
      ≠ some ValidationMsg.requiredField
    cases h : jsGtBound num mx
    · rw [if_neg (by simp [h])]
      exact he
    · rw [if_pos rfl]
      simp

theorem numericError_ne_required (v : Option Answer) (q : Question)
    (e : Option ValidationMsg) (he : e ≠ some ValidationMsg.requiredField) :
    numericError v q e ≠ some ValidationMsg.requiredField := by
  unfold numericError
  by_cases hg : q.type = QType.numeric ∧ v ≠ none ∧ v ≠ some (Answer.str "")
  · rw [if_pos hg]
    cases v with
    | none => exact he
    | some a =>
      exact maxCheck_ne_required q _ _
        (minCheck_ne_required q _ _ (finiteCheck_ne_required _ _ he))
  · rw [if_neg hg]
    exact he

theorem finiteCheck_finite (x : Rat) (e : Option ValidationMsg) :
    finiteCheck (JsNum.finite x) e = e := rfl

theorem finiteCheck_nan (e : Option ValidationMsg) :
    finiteCheck JsNum.nan e = some ValidationMsg.invalidNumber := rfl

theorem finiteCheck_posInf (e : Option ValidationMsg) :
    finiteCheck JsNum.posInf e = some ValidationMsg.invalidNumber := rfl

theorem finiteCheck_negInf (e : Option ValidationMsg) :
    finiteCheck JsNum.negInf e = some ValidationMsg.invalidNumber := rfl

theorem minCheck_skip (q : Question) (num : JsNum) (e : Option ValidationMsg)
    (h : ∀ mn, q.min = some mn → jsLtBound num mn = false) : minCheck q num e = e := by
  unfold minCheck
  cases hmn : q.min with
  | none => rfl
  | some mn =>
    show (if jsLtBound num mn then some (ValidationMsg.belowMin mn) else e) = e
    rw [if_neg (by simp [h mn hmn])]

theorem minCheck_fire (q : Question) (num : JsNum) (e : Option ValidationMsg)
    (mn : Rat) (hmn : q.min = some mn) (h : jsLtBound num mn = true) :
    minCheck q num e = some (ValidationMsg.belowMin mn) := by
  unfold minCheck
  rw [hmn]
  show (if jsLtBound num mn then some (ValidationMsg.belowMin mn) else e) = _
  rw [if_pos h]

theorem maxCheck_skip (q : Question) (num : JsNum) (e : Option ValidationMsg)
    (h : ∀ mx, q.max = some mx → jsGtBound num mx = false) : maxCheck q num e = e := by
  unfold maxCheck
  cases hmx : q.max with
  | none => rfl
  | some mx =>
    show (if jsGtBound num mx then some (ValidationMsg.aboveMax mx) else e) = e
    rw [if_neg (by simp [h mx hmx])]

theorem maxCheck_fire (q : Question) (num : JsNum) (e : Option ValidationMsg)
    (mx : Rat) (hmx : q.max = some mx) (h : jsGtBound num mx = true) :
    maxCheck q num e = some (ValidationMsg.aboveMax mx) := by
  unfold maxCheck
  rw [hmx]
  show (if jsGtBound num mx then some (ValidationMsg.aboveMax mx) else e) = _
  rw [if_pos h]

theorem lengthError_ne_required (v : Option Answer) (q : Question)
    (e : Option ValidationMsg) (he : e ≠ some ValidationMsg.requiredField) :
    lengthError v q e ≠ some ValidationMsg.requiredField := by
  unfold lengthError
  cases v with
  | none => cases q.maxLength <;> exact he
  | some a =>
    cases a with
    | multi l => cases q.maxLength <;> exact he
    | str s =>
      cases q.maxLength with
      | none => exact he
      | some ml =>
        show (if (q.type = QType.text ∨ q.type = QType.longText) ∧ ml ≠ 0 then
          if ml < s.length then some (ValidationMsg.tooLong ml) else e else e)
          ≠ some ValidationMsg.requiredField
        by_cases hc : (q.type = QType.text ∨ q.type = QType.longText) ∧ ml ≠ 0
        · rw [if_pos hc]
          by_cases hlen : ml < s.length
          · rw [if_pos hlen]
            simp
          · rw [if_neg hlen]
            exact he
        · rw [if_neg hc]
          exact he

theorem questionError_ne_required_of_answered (answers : List (String × Answer))
    (q : Question) (hmc : q.type ≠ QType.multiChoice) (s : String)
    (hv : lookupAnswer answers q.id = some (Answer.str s)) (hs : s ≠ "") :
    questionError answers q ≠ some ValidationMsg.requiredField := by
  show lengthError (lookupAnswer answers q.id) q
    (numericError (lookupAnswer answers q.id) q
      (requiredError (lookupAnswer answers q.id) q)) ≠ some ValidationMsg.requiredField
  rw [hv, requiredError_of_not_unanswered _ _ (unanswered_str_ne q s hmc hs)]
  exact lengthError_ne_required _ _ _ (numericError_ne_required _ _ _ (by simp))

theorem errorFor_fold_skip (answers : List (String × Answer)) (qs : List Question)
    (k : String) (acc : Option ValidationMsg)
    (h : ∀ q ∈ qs, ¬(isVisible answers q = true ∧ q.id = k)) :
    qs.foldl (fun acc q =>
      if isVisible answers q = true ∧ q.id = k then
        match questionError answers q with
        | some msg => some msg
        | none => acc
      else acc) acc = acc := by
  induction qs generalizing acc with
  | nil => rfl
  | cons q t ih =>
    simp only [List.foldl_cons]
    rw [if_neg (h q (List.mem_cons_self q t))]
    exact ih acc (fun q' hq' => h q' (List.mem_cons_of_mem q hq'))

theorem errorFor_none (answers : List (String × Answer)) (qs : List Question) (k : String)
    (h : ∀ q ∈ qs, ¬(isVisible answers q = true ∧ q.id = k)) :
    errorFor answers qs k = none :=
  errorFor_fold_skip answers qs k none h

theorem errorFor_eq_of_nodup (answers : List (String × Answer)) :
    ∀ (qs : List Question), (qs.map Question.id).Nodup → ∀ q ∈ qs,
    errorFor answers qs q.id
      = if isVisible answers q = true then questionError answers q else none := by
  intro qs
  induction qs with
  | nil => intro _ q hq; cases hq
  | cons p t ih =>
    intro hnd q hq
    have hnd' := hnd
    rw [List.map_cons, List.nodup_cons] at hnd'
    rcases List.mem_cons.mp hq with rfl | hqt
    · unfold errorFor
      simp only [List.foldl_cons]
      have hskip : ∀ q' ∈ t, ¬(isVisible answers q' = true ∧ q'.id = q.id) := by
        intro q' hq' hcontra
        exact hnd'.1 (hcontra.2 ▸ List.mem_map_of_mem Question.id hq')
      rw [errorFor_fold_skip answers t q.id _ hskip]
      by_cases hvis : isVisible answers q = true
      · rw [if_pos (And.intro hvis trivial), if_pos hvis]
        cases questionError answers q with
        | some msg => rfl
        | none => rfl
      · rw [if_neg (fun h : _ ∧ _ => hvis h.1), if_neg hvis]
    · unfold errorFor
      simp only [List.foldl_cons]
      have hpid : ¬(isVisible answers p = true ∧ p.id = q.id) := by
        rintro ⟨-, hpe⟩
        exact hnd'.1 (hpe ▸ List.mem_map_of_mem Question.id hqt)
      rw [if_neg hpid]
      exact ih hnd'.2 q hqt

/-- C5.  Validation runs only over visible questions: an error key
always belongs to some visible question; a visible required question
that is unanswered (empty selection set for multi-choice, empty or
absent value otherwise) gets exactly the required-field error; a hidden
question never gets an error, required or not; and a non-empty answer
on a non-multi-choice question clears the required error (whatever
error its other checks may produce instead). -/
theorem validation_over_visible (answers : List (String × Answer)) (a : Assessment)
    (hnd : ((allQuestions a).map Question.id).Nodup) :
    (∀ k, lookupError (validateErrors answers a) k ≠ none →
      ∃ q ∈ allQuestions a, q.id = k ∧ isVisible answers q = true) ∧
    (∀ q ∈ allQuestions a, isVisible answers q = true → q.required = true →
      unanswered (lookupAnswer answers q.id) q = true →
      lookupError (validateErrors answers a) q.id = some ValidationMsg.requiredField) ∧
    (∀ q ∈ allQuestions a, isVisible answers q = false →
      lookupError (validateErrors answers a) q.id = none) ∧
    (∀ q ∈ allQuestions a, q.type ≠ QType.multiChoice → ∀ s,
      lookupAnswer answers q.id = some (Answer.str s) → s ≠ "" →
      lookupError (validateErrors answers a) q.id ≠ some ValidationMsg.requiredField) := by
  refine ⟨?_, ?_, ?_, ?_⟩
  · intro k hk
    rw [lookupError_validateErrors] at hk
    by_contra hcon
    push_neg at hcon
    apply hk
    apply errorFor_none
    rintro q hq ⟨hvis, hid⟩
    exact absurd hvis (by simpa [hid] using hcon q hq hid)
  · intro q hq hvis hreq hun
    rw [lookupError_validateErrors, errorFor_eq_of_nodup answers (allQuestions a) hnd q hq,
      if_pos hvis]
    exact questionError_of_unanswered answers q hreq hun
  · intro q hq hvis
    rw [lookupError_validateErrors, errorFor_eq_of_nodup answers (allQuestions a) hnd q hq,
      if_neg (by rw [hvis]; simp)]
  · intro q hq hmc s hv hs
    rw [lookupError_validateErrors, errorFor_eq_of_nodup answers (allQuestions a) hnd q hq]
    by_cases hvis : isVisible answers q = true
    · rw [if_pos hvis]
      exact questionError_ne_required_of_answered answers q hmc s hv hs
    · rw [if_neg hvis]
      simp

/-- Witness: one required text question answered by nothing errors;
a second required question hidden by its rule does not. -/
theorem validation_over_visible_witness :
    lookupError (validateErrors []
      { id := "a", jobId := "j", title := "t", description := "",
        sections := [{ id := "s1", title := "s", order := 0, questions :=
          [{ id := "q1", type := QType.text, required := true },
           { id := "q2", type := QType.text, required := true,
             conditionalLogic := some ⟨"q1", "equals", "Yes"⟩ }] }] }) "q1" = some ValidationMsg.requiredField ∧
    lookupError (validateErrors []
      { id := "a", jobId := "j", title := "t", description := "",
        sections := [{ id := "s1", title := "s", order := 0, questions :=
          [{ id := "q1", type := QType.text, required := true },
           { id := "q2", type := QType.text, required := true,
             conditionalLogic := some ⟨"q1", "equals", "Yes"⟩ }] }] }) "q2" = none :=
  ⟨(validation_over_visible []
      { id := "a", jobId := "j", title := "t", description := "",
        sections := [{ id := "s1", title := "s", order := 0, questions :=
          [{ id := "q1", type := QType.text, required := true },
           { id := "q2", type := QType.text, required := true,
             conditionalLogic := some ⟨"q1", "equals", "Yes"⟩ }] }] } (by decide)).2.1
      { id := "q1", type := QType.text, required := true } (by decide) (by decide) rfl
      (by decide),
   (validation_over_visible []
      { id := "a", jobId := "j", title := "t", description := "",
        sections := [{ id := "s1", title := "s", order := 0, questions :=
          [{ id := "q1", type := QType.text, required := true },
           { id := "q2", type := QType.text, required := true,
             conditionalLogic := some ⟨"q1", "equals", "Yes"⟩ }] }] } (by decide)).2.2.1
      { id := "q2", type := QType.text, required := true,
        conditionalLogic := some ⟨"q1", "equals", "Yes"⟩ } (by decide) (by decide)⟩

theorem lengthError_of_type_ne (v : Option Answer) (q : Question)
    (e : Option ValidationMsg) (h1 : q.type ≠ QType.text) (h2 : q.type ≠ QType.longText) :
    lengthError v q e = e := by
  unfold lengthError
  cases v with
  | none => cases q.maxLength <;> rfl
  | some a =>
    cases a with
    | multi l => cases q.maxLength <;> rfl
    | str s =>
      cases q.maxLength with
      | none => rfl
      | some ml =>
        show (if (q.type = QType.text ∨ q.type = QType.longText) ∧ ml ≠ 0 then
          if ml < s.length then some (ValidationMsg.tooLong ml) else e else e) = e
        rw [if_neg (fun h => h.1.elim h1 h2)]

set_option maxRecDepth 8000 in
/-- C6 counterexample.  The answer "1e400" — digits and `e`, typeable
in the rendered number input — does not parse as a finite number
(`Number("1e400")` overflows to `Infinity`), yet on a question with
min 0 and max 20 the final error slot holds the above-maximum message,
not the non-numeric one: `!Number.isFinite` writes the invalid-number
message first, but `Infinity > 20` then overwrites the shared slot. -/
theorem numeric_validation_counterexample :
    (jsNumber (Answer.str "1e400")).isFinite = false ∧
    questionError [("n", Answer.str "1e400")]
      { id := "n", type := QType.numeric, required := false,
        min := some 0, max := some 20 } = some (ValidationMsg.aboveMax 20) ∧
    some (ValidationMsg.aboveMax 20) ≠ some ValidationMsg.invalidNumber := by
  refine ⟨by decide, by decide, by decide⟩

/-- C6 (amended).  Numeric validation of a visible numeric question
with a non-empty answer, against the JavaScript `Number` semantics of
the source: an answer parsing to `NaN` yields the invalid-number
message (the `NaN` bound comparisons are false, so it survives); a
finite value above the configured maximum yields the above-maximum
message even when it also violates the minimum (the later check owns
the shared slot); a finite value violating only the minimum yields the
below-minimum message; a finite value within both bounds yields no
error; an answer parsing to `Infinity` (resp. `-Infinity`) keeps the
invalid-number message only when no maximum (resp. minimum) is
configured — a configured bound check fires on the infinity and
overwrites the shared slot with its bound message. -/
theorem numeric_validation (answers : List (String × Answer)) (q : Question)
    (hq : q.type = QType.numeric) (s : String)
    (hv : lookupAnswer answers q.id = some (Answer.str s)) (hs : s ≠ "") :
    (jsNumber (Answer.str s) = JsNum.nan →
      questionError answers q = some ValidationMsg.invalidNumber) ∧
    (∀ num, jsNumber (Answer.str s) = JsNum.finite num →
      (∀ mx, q.max = some mx → mx < num →
        questionError answers q = some (ValidationMsg.aboveMax mx)) ∧
      (∀ mn, q.min = some mn → num < mn → (∀ mx, q.max = some mx → ¬mx < num) →
        questionError answers q = some (ValidationMsg.belowMin mn)) ∧
      ((∀ mn, q.min = some mn → ¬num < mn) → (∀ mx, q.max = some mx → ¬mx < num) →
        questionError answers q = none)) ∧
    (jsNumber (Answer.str s) = JsNum.posInf →
      (q.max = none → questionError answers q = some ValidationMsg.invalidNumber) ∧
      (∀ mx, q.max = some mx →
        questionError answers q = some (ValidationMsg.aboveMax mx))) ∧
    (jsNumber (Answer.str s) = JsNum.negInf →
      (q.min = none → questionError answers q = some ValidationMsg.invalidNumber) ∧
      (∀ mn, q.min = some mn →
        questionError answers q = some (ValidationMsg.belowMin mn))) := by
  have hmc : q.type ≠ QType.multiChoice := by
    rw [hq]
    intro h
    cases h
  have htext : q.type ≠ QType.text := by
    rw [hq]
    intro h
    cases h
  have hltext : q.type ≠ QType.longText := by
    rw [hq]
    intro h
    cases h
  have hreq0 : requiredError (some (Answer.str s)) q = none :=
    requiredError_of_not_unanswered _ _ (unanswered_str_ne q s hmc hs)
  have hg : q.type = QType.numeric ∧ (some (Answer.str s) : Option Answer) ≠ none ∧
      some (Answer.str s) ≠ some (Answer.str "") := ⟨hq, by simp, by simp [hs]⟩
  have hnum : numericError (some (Answer.str s)) q none
      = maxCheck q (jsNumber (Answer.str s))
          (minCheck q (jsNumber (Answer.str s))
            (finiteCheck (jsNumber (Answer.str s)) none)) := by
    unfold numericError
    rw [if_pos hg]
  have hbase : questionError answers q
      = maxCheck q (jsNumber (Answer.str s))
          (minCheck q (jsNumber (Answer.str s))
            (finiteCheck (jsNumber (Answer.str s)) none)) := by
    show lengthError (lookupAnswer answers q.id) q
      (numericError (lookupAnswer answers q.id) q
        (requiredError (lookupAnswer answers q.id) q)) = _
    rw [hv, hreq0, hnum, lengthError_of_type_ne _ _ _ htext hltext]
  refine ⟨?_, ?_, ?_, ?_⟩
  · intro hjs
    rw [hbase, hjs, maxCheck_skip q JsNum.nan _ (fun mx _ => rfl),
      minCheck_skip q JsNum.nan _ (fun mn _ => rfl), finiteCheck_nan]
  · intro num hjs
    have hbase2 : questionError answers q
        = maxCheck q (JsNum.finite num) (minCheck q (JsNum.finite num) none) := by
      rw [hbase, hjs, finiteCheck_finite]
    refine ⟨?_, ?_, ?_⟩
    · intro mx hmx hlt
      rw [hbase2, maxCheck_fire q _ _ mx hmx
        (by simp only [jsLtBound, jsGtBound, decide_eq_true_eq]; exact hlt)]
    · intro mn hmn hltmn hnomax
      rw [hbase2, maxCheck_skip q _ _ (fun mx hmx => by
          simp only [jsLtBound, jsGtBound, decide_eq_false_iff_not]
          exact hnomax mx hmx),
        minCheck_fire q _ _ mn hmn
          (by simp only [jsLtBound, jsGtBound, decide_eq_true_eq]; exact hltmn)]
    · intro hnomin hnomax
      rw [hbase2, maxCheck_skip q _ _ (fun mx hmx => by
          simp only [jsLtBound, jsGtBound, decide_eq_false_iff_not]
          exact hnomax mx hmx),
        minCheck_skip q _ _ (fun mn hmn => by
          simp only [jsLtBound, jsGtBound, decide_eq_false_iff_not]
          exact hnomin mn hmn)]
  · intro hjs
    have hbase2 : questionError answers q
        = maxCheck q JsNum.posInf (some ValidationMsg.invalidNumber) := by
      rw [hbase, hjs, minCheck_skip q JsNum.posInf _ (fun mn _ => rfl), finiteCheck_posInf]
    constructor
    · intro hmx
      rw [hbase2]
      unfold maxCheck
      rw [hmx]
    · intro mx hmx
      rw [hbase2, maxCheck_fire q JsNum.posInf _ mx hmx rfl]
  · intro hjs
    have hbase2 : questionError answers q
        = minCheck q JsNum.negInf (some ValidationMsg.invalidNumber) := by
      rw [hbase, hjs, maxCheck_skip q JsNum.negInf _ (fun mx _ => rfl), finiteCheck_negInf]
    constructor
    · intro hmn
      rw [hbase2]
      unfold minCheck
      rw [hmn]
    · intro mn hmn
      rw [hbase2, minCheck_fire q JsNum.negInf _ mn hmn rfl]

set_option maxRecDepth 8000 in
/-- Witness: on a question with min 0 and max 20 — the spec's "25"
errors above the maximum, "10" passes, "abc" is non-numeric; the
`Number`-syntax answers "1e5" (100000, above the maximum), " 5" and
"0x10" (5 and 16, in bounds) bound-check as parsed values; the
overflowing "1e400" is `Infinity` and ends with the above-maximum
message. -/
theorem numeric_validation_witness :
    questionError [("n", Answer.str "25")]
      { id := "n", type := QType.numeric, required := false,
        min := some 0, max := some 20 } = some (ValidationMsg.aboveMax 20) ∧
    questionError [("n", Answer.str "10")]
      { id := "n", type := QType.numeric, required := false,
        min := some 0, max := some 20 } = none ∧
    questionError [("n", Answer.str "abc")]
      { id := "n", type := QType.numeric, required := false,
        min := some 0, max := some 20 } = some ValidationMsg.invalidNumber ∧
    questionError [("n", Answer.str "1e5")]
      { id := "n", type := QType.numeric, required := false,
        min := some 0, max := some 20 } = some (ValidationMsg.aboveMax 20) ∧
    questionError [("n", Answer.str " 5")]
      { id := "n", type := QType.numeric, required := false,
        min := some 0, max := some 20 } = none ∧
    questionError [("n", Answer.str "0x10")]
      { id := "n", type := QType.numeric, required := false,
        min := some 0, max := some 20 } = none ∧
    questionError [("n", Answer.str "1e400")]
      { id := "n", type := QType.numeric, required := false,
        min := some 0, max := some 20 } = some (ValidationMsg.aboveMax 20) :=
  ⟨((numeric_validation [("n", Answer.str "25")]
      { id := "n", type := QType.numeric, required := false,
        min := some 0, max := some 20 } rfl "25" (by decide) (by decide)).2.1 25
      (by decide)).1 20 rfl (by decide),
   ((numeric_validation [("n", Answer.str "10")]
      { id := "n", type := QType.numeric, required := false,
        min := some 0, max := some 20 } rfl "10" (by decide) (by decide)).2.1 10
      (by decide)).2.2 (by intro mn hmn; cases hmn; decide)
      (by intro mx hmx; cases hmx; decide),
   (numeric_validation [("n", Answer.str "abc")]
      { id := "n", type := QType.numeric, required := false,
        min := some 0, max := some 20 } rfl "abc" (by decide) (by decide)).1 (by decide),
   ((numeric_validation [("n", Answer.str "1e5")]
      { id := "n", type := QType.numeric, required := false,
        min := some 0, max := some 20 } rfl "1e5" (by decide) (by decide)).2.1 100000
      (by decide)).1 20 rfl (by decide),
   ((numeric_validation [("n", Answer.str " 5")]
      { id := "n", type := QType.numeric, required := false,
        min := some 0, max := some 20 } rfl " 5" (by decide) (by decide)).2.1 5
      (by decide)).2.2 (by intro mn hmn; cases hmn; decide)
      (by intro mx hmx; cases hmx; decide),
   ((numeric_validation [("n", Answer.str "0x10")]
      { id := "n", type := QType.numeric, required := false,
        min := some 0, max := some 20 } rfl "0x10" (by decide) (by decide)).2.1 16
      (by decide)).2.2 (by intro mn hmn; cases hmn; decide)
      (by intro mx hmx; cases hmx; decide),
   ((numeric_validation [("n", Answer.str "1e400")]
      { id := "n", type := QType.numeric, required := false,
        min := some 0, max := some 20 } rfl "1e400" (by decide) (by decide)).2.2.1
      (by decide)).2 20 rfl⟩

/-- C7.  Candidate stage transition: a gesture resolving to its own
source container issues no mutation and changes nothing persisted; a
gesture into a different container issues exactly one mutation, whose
entire persisted effect is to set the candidate's `currentStage` to the
destination container id (all other fields and all other candidates
unchanged) and to append exactly one `stage_change` timeline event
whose metadata records the new stage. -/
theorem stage_transition (ev : DragEndEvent) (over : DragTarget) (a o : String)
    (hov : ev.over = some over) (ha : ev.active.sortableContainerId = some a)
    (hresolve : (if over.dataType = some "container" then some over.id
      else over.sortableContainerId) = some o)
    (hane : a ≠ "") (hone : o ≠ "") :
    (a = o → handleDragEnd ev = none) ∧
    (a ≠ o →
      handleDragEnd ev = some (ev.active.id, o) ∧
      kanbanMutation (ev.active.id, o) = { currentStage := some o } ∧
      ∀ (cands : List Candidate) (events : List TimelineEvent) (c : Candidate)
        (eventId : String), c ∈ cands → c.id = ev.active.id →
        updateCandidateHandler cands events ev.active.id { currentStage := some o } eventId
          = some
            (cands.map (fun c2 => if c2.id = ev.active.id
              then { c2 with currentStage := o } else c2),
             events ++ [⟨eventId, ev.active.id, TEType.stage_change, "Moved to " ++ o,
               [("newStage", o)]⟩])) := by
  have hdrag : ∀ (heq : a ≠ o), handleDragEnd ev = some (ev.active.id, o) := by
    intro heq
    unfold handleDragEnd
    rw [hov]
    simp only [ha, hresolve]
    rw [if_neg (by push_neg; exact ⟨hane, hone, heq⟩)]
  constructor
  · intro heq
    unfold handleDragEnd
    rw [hov]
    simp only [ha, hresolve]
    rw [if_pos (Or.inr (Or.inr heq))]
  · intro hne
    refine ⟨hdrag hne, rfl, ?_⟩
    intro cands events c eventId hc hcid
    have hany : cands.any (fun c2 => c2.id == ev.active.id) = true :=
      List.any_eq_true.mpr ⟨c, hc, by simp [hcid]⟩
    have happly : ∀ c2 : Candidate,
        applyCandidateUpdate c2 { currentStage := some o } = { c2 with currentStage := o } := by
      intro c2
      simp [applyCandidateUpdate, newStageOf, jsOrStr]
    have htruthy : truthyNewStage { currentStage := some o } = some o := by
      simp [truthyNewStage, newStageOf, jsOrStr, hone]
    unfold updateCandidateHandler
    rw [if_pos hany, htruthy]
    congr 1

/-- Witness: moving a candidate from `applied` to `tech` sets the stage
and appends the one `stage_change` event with `newStage = tech`. -/
theorem stage_transition_witness :
    updateCandidateHandler
      [{ id := "c1", name := "N", email := "e", currentStage := "applied", jobId := "j" }]
      [] "c1" { currentStage := some "tech" } "t1"
      = some
        ([{ id := "c1", name := "N", email := "e", currentStage := "tech", jobId := "j" }],
         [⟨"t1", "c1", TEType.stage_change, "Moved to tech", [("newStage", "tech")]⟩]) ∧
    handleDragEnd
      { active := { id := "c1", sortableContainerId := some "applied" },
        over := some { id := "tech", dataType := some "container" } } = some ("c1", "tech") ∧
    handleDragEnd
      { active := { id := "c1", sortableContainerId := some "applied" },
        over := some { id := "applied", dataType := some "container" } } = none := by
  refine ⟨?_, ?_, ?_⟩
  · have h := ((stage_transition
      { active := { id := "c1", sortableContainerId := some "applied" },
        over := some { id := "tech", dataType := some "container" } }
      { id := "tech", dataType := some "container" } "applied" "tech"
      rfl rfl (by decide) (by decide) (by decide)).2 (by decide)).2.2
      [{ id := "c1", name := "N", email := "e", currentStage := "applied", jobId := "j" }]
      [] { id := "c1", name := "N", email := "e", currentStage := "applied", jobId := "j" }
      "t1" (by decide) rfl
    rw [h]
    decide
  · exact ((stage_transition
      { active := { id := "c1", sortableContainerId := some "applied" },
        over := some { id := "tech", dataType := some "container" } }
      { id := "tech", dataType := some "container" } "applied" "tech"
      rfl rfl (by decide) (by decide) (by decide)).2 (by decide)).1
  · exact (stage_transition
      { active := { id := "c1", sortableContainerId := some "applied" },
        over := some { id := "applied", dataType := some "container" } }
      { id := "applied", dataType := some "container" } "applied" "applied"
      rfl rfl (by decide) (by decide) (by decide)).1 rfl

/-- C10.  The handler appends a `stage_change` event whenever a stage
value is present in the update body, without checking that it changed:
updating a candidate to its existing stage succeeds, leaves every
candidate untouched, and still appends the event. -/
theorem stage_change_event_without_change (cands : List Candidate)
    (events : List TimelineEvent) (c : Candidate) (hc : c ∈ cands)
    (hids : (cands.map Candidate.id).Nodup) (hstage : c.currentStage ≠ "")
    (eventId : String) :
    updateCandidateHandler cands events c.id { stage := some c.currentStage } eventId
      = some (cands, events ++ [⟨eventId, c.id, TEType.stage_change,
          "Moved to " ++ c.currentStage, [("newStage", c.currentStage)]⟩]) := by
  have hany : cands.any (fun c2 => c2.id == c.id) = true :=
    List.any_eq_true.mpr ⟨c, hc, by simp⟩
  have htruthy : truthyNewStage { stage := some c.currentStage } = some c.currentStage := by
    simp [truthyNewStage, newStageOf, jsOrStr, hstage]
  unfold updateCandidateHandler
  rw [if_pos hany, htruthy]
  congr 1
  have hmapid : ∀ c2 ∈ cands,
      (if c2.id = c.id then applyCandidateUpdate c2 { stage := some c.currentStage } else c2)
        = c2 := by
    intro c2 hc2
    by_cases hid : c2.id = c.id
    · have hceq : c2 = c := List.inj_on_of_nodup_map hids hc2 hc hid
      subst hceq
      rw [if_pos hid]
      simp [applyCandidateUpdate, newStageOf, jsOrStr, hstage]
    · rw [if_neg hid]
  rw [List.map_congr_left hmapid, List.map_id']

/-- Witness: a candidate already in stage `tech` updated to `tech`
keeps its row and still gains a `stage_change` event. -/
theorem stage_change_event_without_change_witness :
    updateCandidateHandler
      [{ id := "c1", name := "N", email := "e", currentStage := "tech", jobId := "j" }]
      [] "c1" { stage := some "tech" } "t1"
      = some
        ([{ id := "c1", name := "N", email := "e", currentStage := "tech", jobId := "j" }],
         [⟨"t1", "c1", TEType.stage_change, "Moved to tech", [("newStage", "tech")]⟩]) :=
  stage_change_event_without_change
    [{ id := "c1", name := "N", email := "e", currentStage := "tech", jobId := "j" }]
    [] { id := "c1", name := "N", email := "e", currentStage := "tech", jobId := "j" }
    (by decide) (by decide) (by decide) "t1"

/-- C3.  Rollback atomicity: when the remote write of an optimistic
mutation (job reorder or candidate stage update) fails, the cached
collection view ends up exactly equal to the pre-mutation snapshot —
no partial application survives — and exactly one failure notification
is emitted. -/
theorem rollback_atomicity :
    (∀ (cache : Option JobsQueryData) (vars : ReorderVars),
      (reorderMutationFailure cache vars).1 = cache ∧
      (reorderMutationFailure cache vars).2 = 1) ∧
    (∀ (cache : Option CandidatesResponse) (id : String) (u : CandidateUpdate),
      (candidateMutationFailure cache id u).1 = cache ∧
      (candidateMutationFailure cache id u).2 = 1) := by
  constructor
  · intro cache vars
    cases cache <;> exact ⟨rfl, rfl⟩
  · intro cache id u
    cases cache <;> exact ⟨rfl, rfl⟩

/-- Counterexample to C8 as stated: saving a body whose title is the
empty string onto an empty store creates an assessment titled
"Assessment", not the submitted empty title, and a second save of the
same body then changes the stored title to "" — so neither
"content equals the submitted body" nor idempotence holds for every
body. -/
theorem save_assessment_counterexample :
    (putAssessmentHandler [] "job-1"
      { title := some "", description := some "d", sections := some [] } "a-1").map
      Assessment.title = ["Assessment"] ∧
    ("Assessment" : String) ≠ "" ∧
    (putAssessmentHandler
      (putAssessmentHandler [] "job-1"
        { title := some "", description := some "d", sections := some [] } "a-1")
      "job-1" { title := some "", description := some "d", sections := some [] }
      "a-2").map Assessment.title = [""] := by
  decide

theorem eq_of_filter_le_one {α : Type} (l : List α) (p : α → Bool) (a b : α)
    (ha : a ∈ l) (hb : b ∈ l) (hpa : p a = true) (hpb : p b = true)
    (hlen : (l.filter p).length ≤ 1) : a = b := by
  have ha2 : a ∈ l.filter p := List.mem_filter.mpr ⟨ha, hpa⟩
  have hb2 : b ∈ l.filter p := List.mem_filter.mpr ⟨hb, hpb⟩
  cases hf : l.filter p with
  | nil =>
    rw [hf] at ha2
    cases ha2
  | cons x tl =>
    cases tl with
    | nil =>
      rw [hf] at ha2 hb2
      simp only [List.mem_singleton] at ha2 hb2
      rw [ha2, hb2]
    | cons y tl2 =>
      rw [hf] at hlen
      simp at hlen

theorem putAssessmentHandler_update (assessments : List Assessment) (jobId : String)
    (body : AssessmentBody) (newId : String) (existing : Assessment)
    (hfind : assessments.find? (fun a2 => a2.jobId == jobId) = some existing) :
    putAssessmentHandler assessments jobId body newId
      = assessments.map (fun a2 => if a2.id = existing.id
          then { existing with
            title := body.title.getD existing.title,
            description := body.description.getD existing.description,
            sections := body.sections.getD existing.sections } else a2) := by
  unfold putAssessmentHandler
  rw [hfind]

theorem putAssessmentHandler_create (assessments : List Assessment) (jobId : String)
    (body : AssessmentBody) (newId : String)
    (hfind : assessments.find? (fun a2 => a2.jobId == jobId) = none) :
    putAssessmentHandler assessments jobId body newId
      = assessments ++
          [⟨newId, jobId, jsStrOr body.title "Assessment", body.description.getD "",
            body.sections.getD []⟩] := by
  unfold putAssessmentHandler
  rw [hfind]

/-- C8 (amended).  For a full body — title present and non-empty,
description and sections present — and a store holding at most one
assessment per job with distinct ids, a save leaves exactly one
assessment for the job, its content equal to the body (created when
none existed, updated in place otherwise), and a second save of the
same body is the identity on the store. -/
theorem save_assessment_create_or_replace (assessments : List Assessment)
    (hids : (assessments.map Assessment.id).Nodup) (jobId : String)
    (hatmost : (assessments.filter (fun a2 => a2.jobId == jobId)).length ≤ 1)
    (t d : String) (ht : t ≠ "") (ss : List AssessmentSection) (newId newId2 : String)
    (hnew : newId ∉ assessments.map Assessment.id) :
    ((putAssessmentHandler assessments jobId
        { title := some t, description := some d, sections := some ss } newId).filter
      (fun a2 => a2.jobId == jobId)).length = 1 ∧
    (∀ a2 ∈ putAssessmentHandler assessments jobId
        { title := some t, description := some d, sections := some ss } newId,
      a2.jobId = jobId → a2.title = t ∧ a2.description = d ∧ a2.sections = ss) ∧
    putAssessmentHandler
      (putAssessmentHandler assessments jobId
        { title := some t, description := some d, sections := some ss } newId) jobId
      { title := some t, description := some d, sections := some ss } newId2
      = putAssessmentHandler assessments jobId
          { title := some t, description := some d, sections := some ss } newId := by
  cases hfind : assessments.find? (fun a2 => a2.jobId == jobId) with
  | some existing =>
    have hexmem : existing ∈ assessments := List.mem_of_find?_eq_some hfind
    have hexp : existing.jobId = jobId := by simpa using List.find?_some hfind
    have hput := putAssessmentHandler_update assessments jobId
      { title := some t, description := some d, sections := some ss } newId existing hfind
    have hfid : ∀ a2 : Assessment,
        ((if a2.id = existing.id
          then { existing with title := t, description := d, sections := ss }
          else a2) : Assessment).id = a2.id := by
      intro a2
      by_cases h : a2.id = existing.id
      · rw [if_pos h]
        exact h.symm
      · rw [if_neg h]
    have hresult_ids : (putAssessmentHandler assessments jobId
        { title := some t, description := some d, sections := some ss } newId).map
        Assessment.id = assessments.map Assessment.id := by
      rw [hput, List.map_map]
      exact List.map_congr_left (fun a2 _ => hfid a2)
    have hcontent : ∀ a2 ∈ putAssessmentHandler assessments jobId
        { title := some t, description := some d, sections := some ss } newId,
        a2.jobId = jobId → a2.title = t ∧ a2.description = d ∧ a2.sections = ss := by
      intro a2 ha2 hjob
      rw [hput] at ha2
      rcases List.mem_map.mp ha2 with ⟨b, hb, hba⟩
      by_cases h : b.id = existing.id
      · rw [if_pos h] at hba
        rw [← hba]
        exact ⟨rfl, rfl, rfl⟩
      · rw [if_neg h] at hba
        subst hba
        have hbe : b = existing := eq_of_filter_le_one assessments _ b existing hb hexmem
          (by simp [hjob]) (by simp [hexp]) hatmost
        exact absurd (congrArg Assessment.id hbe) h
    refine ⟨?_, hcontent, ?_⟩
    · rw [hput, List.filter_map]
      rw [List.filter_congr (fun x hx => ?hcong)]
      case hcong =>
        show ((if x.id = existing.id
          then { existing with title := t, description := d, sections := ss }
          else x).jobId == jobId) = (x.jobId == jobId)
        by_cases h : x.id = existing.id
        · have hxe : x = existing := List.inj_on_of_nodup_map hids hx hexmem h
          subst hxe
          rw [if_pos h]
        · rw [if_neg h]
      rw [List.length_map]
      have hpos : 0 < (assessments.filter (fun a2 => a2.jobId == jobId)).length :=
        List.length_pos_of_mem (List.mem_filter.mpr ⟨hexmem, by simp [hexp]⟩)
      omega
    · have hupdmem : ({ existing with title := t, description := d, sections := ss } :
          Assessment) ∈ putAssessmentHandler assessments jobId
          { title := some t, description := some d, sections := some ss } newId := by
        rw [hput]
        exact List.mem_map.mpr ⟨existing, hexmem, by simp⟩
      cases hfind2 : (putAssessmentHandler assessments jobId
          { title := some t, description := some d, sections := some ss } newId).find?
          (fun a2 => a2.jobId == jobId) with
      | none =>
        have := List.find?_eq_none.mp hfind2 _ hupdmem
        simp [hexp] at this
      | some e2 =>
        have he2mem := List.mem_of_find?_eq_some hfind2
        have he2p : e2.jobId = jobId := by simpa using List.find?_some hfind2
        obtain ⟨ht2, hd2, hs2⟩ := hcontent e2 he2mem he2p
        have hupd2 : ({ e2 with title := t, description := d, sections := ss } :
            Assessment) = e2 := by
          rw [← ht2, ← hd2, ← hs2]
        have hresult_nodup : ((putAssessmentHandler assessments jobId
            { title := some t, description := some d, sections := some ss } newId).map
            Assessment.id).Nodup := by
          rw [hresult_ids]
          exact hids
        rw [putAssessmentHandler_update _ _ _ _ _ hfind2]
        have hgid : ∀ a2 ∈ putAssessmentHandler assessments jobId
            { title := some t, description := some d, sections := some ss } newId,
            (if a2.id = e2.id
              then { e2 with
                title := (some t).getD e2.title,
                description := (some d).getD e2.description,
                sections := (some ss).getD e2.sections }
              else a2) = a2 := by
          intro a2 ha2
          by_cases h : a2.id = e2.id
          · have ha2e : a2 = e2 := List.inj_on_of_nodup_map hresult_nodup ha2 he2mem h
            subst ha2e
            rw [if_pos h]
            exact hupd2
          · rw [if_neg h]
        rw [List.map_congr_left hgid, List.map_id']
  | none =>
    have hput := putAssessmentHandler_create assessments jobId
      { title := some t, description := some d, sections := some ss } newId hfind
    have htitle : jsStrOr (some t) "Assessment" = t := by
      show (if t ≠ "" then t else "Assessment") = t
      rw [if_pos ht]
    have hnone : ∀ a2 ∈ assessments, ¬(a2.jobId == jobId) = true :=
      List.find?_eq_none.mp hfind
    have hcontent : ∀ a2 ∈ putAssessmentHandler assessments jobId
        { title := some t, description := some d, sections := some ss } newId,
        a2.jobId = jobId → a2.title = t ∧ a2.description = d ∧ a2.sections = ss := by
      intro a2 ha2 hjob
      rw [hput] at ha2
      rcases List.mem_append.mp ha2 with hmem | hmem
      · exact absurd (by simp [hjob]) (hnone a2 hmem)
      · have : a2 = ⟨newId, jobId, jsStrOr (some t) "Assessment", d, ss⟩ := by
          simpa using hmem
        rw [this]
        exact ⟨htitle, rfl, rfl⟩
    refine ⟨?_, hcontent, ?_⟩
    · rw [hput, List.filter_append, List.filter_eq_nil_iff.mpr hnone, List.nil_append]
      show (List.filter (fun a2 : Assessment => a2.jobId == jobId)
        [(⟨newId, jobId, jsStrOr (some t) "Assessment", d, ss⟩ : Assessment)]).length = 1
      simp
    · have hfind2 : (putAssessmentHandler assessments jobId
          { title := some t, description := some d, sections := some ss } newId).find?
          (fun a2 => a2.jobId == jobId)
          = some ⟨newId, jobId, jsStrOr (some t) "Assessment", d, ss⟩ := by
        rw [hput, List.find?_append, hfind, Option.none_or]
        exact List.find?_cons_of_pos _ (by simp)
      rw [putAssessmentHandler_update _ _ _ _ _ hfind2]
      have hresult_nodup : ((putAssessmentHandler assessments jobId
          { title := some t, description := some d, sections := some ss } newId).map
          Assessment.id).Nodup := by
        rw [hput, List.map_append]
        rw [List.nodup_append]
        refine ⟨hids, by simp, ?_⟩
        intro x hx
        simp only [List.map_cons, List.map_nil, List.mem_singleton]
        intro hx2
        exact hnew (hx2 ▸ hx)
      have hupd2 : ({ (⟨newId, jobId, jsStrOr (some t) "Assessment", d, ss⟩ : Assessment)
          with title := t, description := d, sections := ss } : Assessment)
          = ⟨newId, jobId, jsStrOr (some t) "Assessment", d, ss⟩ := by
        rw [htitle]
      have hmemA : (⟨newId, jobId, jsStrOr (some t) "Assessment", d, ss⟩ : Assessment)
          ∈ putAssessmentHandler assessments jobId
            { title := some t, description := some d, sections := some ss } newId := by
        rw [hput]
        exact List.mem_append.mpr (Or.inr (by simp))
      have hgid : ∀ a2 ∈ putAssessmentHandler assessments jobId
          { title := some t, description := some d, sections := some ss } newId,
          (if a2.id = (⟨newId, jobId, jsStrOr (some t) "Assessment", d, ss⟩ :
              Assessment).id
            then { (⟨newId, jobId, jsStrOr (some t) "Assessment", d, ss⟩ : Assessment) with
              title := (some t).getD (jsStrOr (some t) "Assessment"),
              description := (some d).getD d,
              sections := (some ss).getD ss }
            else a2) = a2 := by
        intro a2 ha2
        by_cases h : a2.id = (⟨newId, jobId, jsStrOr (some t) "Assessment", d, ss⟩ :
            Assessment).id
        · have ha2e : a2 = ⟨newId, jobId, jsStrOr (some t) "Assessment", d, ss⟩ :=
            List.inj_on_of_nodup_map hresult_nodup ha2 hmemA h
          subst ha2e
          rw [if_pos h]
          exact hupd2
        · rw [if_neg h]
      rw [List.map_congr_left hgid, List.map_id']

/-- Witness: saving a full body onto an empty store, then saving it
again. -/
theorem save_assessment_create_or_replace_witness :
    ((putAssessmentHandler [] "job-1"
        { title := some "T", description := some "D", sections := some [] } "a-1").filter
      (fun a2 => a2.jobId == "job-1")).length = 1 ∧
    (∀ a2 ∈ putAssessmentHandler [] "job-1"
        { title := some "T", description := some "D", sections := some [] } "a-1",
      a2.jobId = "job-1" → a2.title = "T" ∧ a2.description = "D" ∧ a2.sections = []) ∧
    putAssessmentHandler
      (putAssessmentHandler [] "job-1"
        { title := some "T", description := some "D", sections := some [] } "a-1") "job-1"
      { title := some "T", description := some "D", sections := some [] } "a-2"
      = putAssessmentHandler [] "job-1"
          { title := some "T", description := some "D", sections := some [] } "a-1" :=
  save_assessment_create_or_replace [] (by decide) "job-1" (by decide) "T" "D"
    (by decide) [] "a-1" "a-2" (by decide)

/-- C9.  Deleting a section removes exactly the sections with that
identity: the rest survive verbatim (same order field, title,
description, question list) and in their original relative order, the
assessment's other fields are untouched, and no reindexing happens —
witnessed by a deletion that leaves the order values non-contiguous. -/
theorem delete_section_frame (a : Assessment) (sectionId : String) :
    (deleteSection a sectionId).sections.Sublist a.sections ∧
    (∀ s : AssessmentSection,
      s ∈ (deleteSection a sectionId).sections ↔ s ∈ a.sections ∧ s.id ≠ sectionId) ∧
    (deleteSection a sectionId).id = a.id ∧
    (deleteSection a sectionId).jobId = a.jobId ∧
    (deleteSection a sectionId).title = a.title ∧
    (deleteSection a sectionId).description = a.description ∧
    (∃ (a2 : Assessment) (sid : String),
      ¬ List.Perm ((deleteSection a2 sid).sections.map AssessmentSection.order)
        (List.range (deleteSection a2 sid).sections.length)) := by
  refine ⟨List.filter_sublist _, ?_, rfl, rfl, rfl, rfl, ?_⟩
  · intro s
    show s ∈ a.sections.filter (fun s => s.id != sectionId) ↔ _
    rw [List.mem_filter]
    simp
  · refine ⟨⟨"a", "j", "t", "",
      [⟨"s0", "A", none, 0, []⟩, ⟨"s1", "B", none, 1, []⟩, ⟨"s2", "C", none, 2, []⟩]⟩,
      "s1", ?_⟩
    decide

/-- Witness: a concrete failed reorder and failed stage update, each
leaving the cache exactly as snapshotted and emitting one toast. -/
theorem rollback_atomicity_witness :
    (reorderMutationFailure (some ⟨[⟨"a", 0⟩, ⟨"b", 1⟩], ⟨1, 10, 2, 1⟩⟩) ⟨"a", 1⟩).1
      = some ⟨[⟨"a", 0⟩, ⟨"b", 1⟩], ⟨1, 10, 2, 1⟩⟩ ∧
    (candidateMutationFailure
      (some ⟨[⟨"c1", "N", "e", none, "applied", "j", none⟩], ⟨1, 50, 1, 1⟩⟩) "c1"
      { currentStage := some "tech" }).1
      = some ⟨[⟨"c1", "N", "e", none, "applied", "j", none⟩], ⟨1, 50, 1, 1⟩⟩ :=
  ⟨(rollback_atomicity.1 (some ⟨[⟨"a", 0⟩, ⟨"b", 1⟩], ⟨1, 10, 2, 1⟩⟩) ⟨"a", 1⟩).1,
   (rollback_atomicity.2
      (some ⟨[⟨"c1", "N", "e", none, "applied", "j", none⟩], ⟨1, 50, 1, 1⟩⟩) "c1"
      { currentStage := some "tech" }).1⟩

/-- Witness: deleting the middle of three sections keeps the outer two
verbatim. -/
theorem delete_section_frame_witness :
    (deleteSection ⟨"a", "j", "t", "",
      [⟨"s0", "A", none, 0, []⟩, ⟨"s1", "B", none, 1, []⟩, ⟨"s2", "C", none, 2, []⟩]⟩
      "s1").sections.Sublist
      [⟨"s0", "A", none, 0, []⟩, ⟨"s1", "B", none, 1, []⟩, ⟨"s2", "C", none, 2, []⟩] ∧
    (deleteSection ⟨"a", "j", "t", "",
      [⟨"s0", "A", none, 0, []⟩, ⟨"s1", "B", none, 1, []⟩, ⟨"s2", "C", none, 2, []⟩]⟩
      "s1").sections.map AssessmentSection.order = [0, 2] :=
  ⟨(delete_section_frame ⟨"a", "j", "t", "",
      [⟨"s0", "A", none, 0, []⟩, ⟨"s1", "B", none, 1, []⟩, ⟨"s2", "C", none, 2, []⟩]⟩
      "s1").1,
   by decide⟩
